import Mathlib

/-!
# student-assigner: the store queries and the assignment workflow of `main.go`

The program keeps two SQLite tables (`students`, `assignments`) and drives a
four-state terminal workflow over them.  This development embeds

* the store: the two tables as lists in table-scan (rowid) order, the three
  writes (`createStudent`, `toggleStudentHidden`, `createAssignment`) and the
  two ranking queries (`fetchStudents`, `fetchCompanions`), the latter two
  evaluated clause by clause (join, filter, group, aggregate, order);
* the helpers `strconv.Atoi`, `strconv.FormatInt` and `formatDate`;
* `model.Update`, with the two terminal widgets (list and text input) kept
  abstract behind the operations the program calls on them.

Conventions.  SQL `NULL` is `none`.  `ORDER BY` is a stable sort of the rows in
the order the preceding clauses produce them, with `NULL` before every value in
ascending order, as in SQLite.  Text is compared with the default `BINARY`
collation, which on valid UTF-8 is the code point order of `String`.
The driver-failure branches of the two queries (a failed `db.Query`, a failed
`rows.Scan`) are outside the model: a store is a value, and a query is a
function of it.
-/

namespace StudentAssigner

/-! ## Data model -/

/-- A row of table `students`. -/
structure StudentRow where
  id : Int
  name : String
  hidden : Bool
deriving DecidableEq, Repr

/-- A row of table `assignments`. -/
structure AssignmentRow where
  id : Int
  main_student : Int
  assistant_student : Int
  date : Int
deriving DecidableEq, Repr

/-- Modelled from the spec: `schema.sql` is not among the sources.  The two
tables are those of the spec (`students(id, name UNIQUE NOT NULL, hidden)`,
`assignments(id, main_student, assistant_student, date)`), each list in rowid
order.  Whether SQLite enforces the two `REFERENCES students(id)` clauses
depends on a pragma that only the schema file could set, so it is a field. -/
structure DB where
  students : List StudentRow
  assignments : List AssignmentRow
  foreign_keys : Bool
deriving DecidableEq, Repr

/-- The Go view type `Student` (lines 29-34). -/
structure Student where
  ID : Int
  Name : String
  LastAssignmentDate : Option Int
  Hidden : Bool
deriving DecidableEq, Repr

/-- The Go view type `Companion` (lines 43-48). -/
structure Companion where
  ID : Int
  Name : String
  LastTogetherDate : Option Int
  LastAnyAssignmentDate : Option Int
deriving DecidableEq, Repr

/-! ## SQL building blocks -/

/-- The aggregate `MAX(...)`: the largest non-NULL value, NULL when there is none. -/
def sqlMax : List (Option Int) → Option Int
  | [] => none
  | none :: t => sqlMax t
  | some x :: t =>
    match sqlMax t with
    | none => some x
    | some y => some (max x y)

/-- Strict `ORDER BY ... ASC` comparison of a nullable integer key: NULL first. -/
def nullLt : Option Int → Option Int → Prop
  | none, none => False
  | none, some _ => True
  | some _, none => False
  | some x, some y => x < y

instance nullLt_decidable (a b : Option Int) : Decidable (nullLt a b) := by
  cases a <;> cases b <;> unfold nullLt <;> infer_instance

/-- The derived table `a` of `fetchStudents`:
`SELECT main_student, date ... UNION ALL SELECT assistant_student, date ...`,
as pairs `(student_id, date)`. -/
def activityRows (db : DB) : List (Int × Int) :=
  db.assignments.map (fun r => (r.main_student, r.date)) ++
    db.assignments.map (fun r => (r.assistant_student, r.date))

/-- The join `students s LEFT JOIN a ON s.id = a.student_id`: every student row
paired with the date of each matching row of `a`, or once with NULL when no row
matches. -/
def leftJoin (ss : List StudentRow) (a : List (Int × Int)) :
    List (StudentRow × Option Int) :=
  ss.flatMap fun s =>
    match a.filter (fun x => decide (s.id = x.1)) with
    | [] => [(s, none)]
    | x :: m => (x :: m).map fun y => (s, some y.2)

/-- The rows of the join that pass `WHERE s.hidden = 0`. -/
def visibleJoin (db : DB) : List (StudentRow × Option Int) :=
  (leftJoin db.students (activityRows db)).filter fun r => r.1.hidden == false

/-- The groups of `GROUP BY s.id, s.name`: the distinct key pairs. -/
def groupKeys (rows : List (StudentRow × Option Int)) : List (Int × String) :=
  (rows.map fun r => (r.1.id, r.1.name)).dedup

/-- The rows of one group. -/
def groupRows (rows : List (StudentRow × Option Int)) (k : Int × String) :
    List (StudentRow × Option Int) :=
  rows.filter fun r => decide ((r.1.id, r.1.name) = k)

/-- One output row per group: the two grouping columns, the bare column
`s.hidden` read from a row of the group, and `MAX(a.date)`. -/
def studentOfGroup (rows : List (StudentRow × Option Int)) (k : Int × String) : Student :=
  let g := groupRows rows k
  { ID := k.1
    Name := k.2
    LastAssignmentDate := sqlMax (g.map fun r => r.2)
    Hidden := match g with
      | [] => false
      | r :: _ => r.1.hidden }

/-- The clause `ORDER BY last_assignment_date ASC, s.name` of `fetchStudents`. -/
def studentOrder (a b : Student) : Prop :=
  nullLt a.LastAssignmentDate b.LastAssignmentDate ∨
    (a.LastAssignmentDate = b.LastAssignmentDate ∧ a.Name ≤ b.Name)

/-- The order is decided on the code points of the two names. -/
instance studentOrder_decidable : DecidableRel studentOrder := fun a b =>
  decidable_of_iff
    (nullLt a.LastAssignmentDate b.LastAssignmentDate ∨
      (a.LastAssignmentDate = b.LastAssignmentDate ∧ a.Name.toList ≤ b.Name.toList))
    (by unfold studentOrder; rw [String.le_iff_toList_le])

/-- The clause `ORDER BY last_together_date ASC, last_any_assignment_date ASC`
of `fetchCompanions`: two keys, no name. -/
def companionOrder (a b : Companion) : Prop :=
  nullLt a.LastTogetherDate b.LastTogetherDate ∨
    (a.LastTogetherDate = b.LastTogetherDate ∧
      (nullLt a.LastAnyAssignmentDate b.LastAnyAssignmentDate ∨
        a.LastAnyAssignmentDate = b.LastAnyAssignmentDate))

instance companionOrder_decidable : DecidableRel companionOrder := fun a b => by
  unfold companionOrder; infer_instance

/-! ## The store operations of `main.go` -/

/-- The rowid SQLite gives an inserted row: one more than the largest in use,
1 in an empty table. -/
def nextId : List Int → Int
  | [] => 1
  | x :: xs => xs.foldl max x + 1

/-- Go `createStudent` (lines 277-287): the insert fails on the `UNIQUE`
constraint of `name`, and the failure is reworded; otherwise a visible row with
a fresh id is appended. -/
def createStudent (db : DB) (name : String) : Except String DB :=
  if name ∈ db.students.map (fun s => s.name) then
    .error ("el estudiante '" ++ name ++ "' ya existe")
  else
    .ok { db with
      students := db.students ++ [⟨nextId (db.students.map fun s => s.id), name, false⟩] }

/-- Go `toggleStudentHidden` (lines 289-292):
`UPDATE students SET hidden = ? WHERE id = ?`.  An id that matches no row
updates nothing and is no error. -/
def toggleStudentHidden (db : DB) (studentID : Int) (hidden : Bool) : Except String DB :=
  .ok { db with
    students := db.students.map fun s =>
      if s.id = studentID then { s with hidden := hidden } else s }

/-- Go `fetchStudents` (lines 294-324): the query, clause by clause, and the
scan loop that copies each result row into a `Student`. -/
def fetchStudents (db : DB) : List Student :=
  let rows := visibleJoin db
  ((groupKeys rows).map (studentOfGroup rows)).insertionSort studentOrder

/-- The first correlated subquery of `fetchCompanions`: `MAX(date)` over the
assignments that pair `mainStudentID` and `sid`, in either order. -/
def lastTogether (db : DB) (mainStudentID sid : Int) : Option Int :=
  sqlMax ((db.assignments.filter fun a =>
    decide ((a.main_student = mainStudentID ∧ a.assistant_student = sid) ∨
      (a.main_student = sid ∧ a.assistant_student = mainStudentID))).map fun a => some a.date)

/-- The second correlated subquery of `fetchCompanions`: `MAX(date)` over the
assignments in which `sid` takes part. -/
def lastAny (db : DB) (sid : Int) : Option Int :=
  sqlMax ((db.assignments.filter fun a =>
    decide (a.main_student = sid ∨ a.assistant_student = sid)).map fun a => some a.date)

/-- Go `fetchCompanions` (lines 326-357). -/
def fetchCompanions (db : DB) (mainStudentID : Int) : List Companion :=
  ((db.students.filter fun s => decide (s.id ≠ mainStudentID) && (s.hidden == false)).map
    fun s => (⟨s.id, s.name, lastTogether db mainStudentID s.id, lastAny db s.id⟩ : Companion)
    ).insertionSort companionOrder

/-- Go `createAssignment` (lines 359-367): the insert appends one row; with
foreign keys enforced it fails when either id is not a student. -/
def createAssignment (db : DB) (mainStudentID assistantStudentID : Int) (date : Int) :
    Except String DB :=
  if db.foreign_keys = true ∧
      ¬ (mainStudentID ∈ db.students.map (fun s => s.id) ∧
        assistantStudentID ∈ db.students.map (fun s => s.id)) then
    .error "FOREIGN KEY constraint failed"
  else
    .ok { db with
      assignments := db.assignments ++
        [⟨nextId (db.assignments.map fun a => a.id), mainStudentID, assistantStudentID, date⟩] }

/-! ## Library helpers used by the workflow -/

/-- The two failures of `strconv.Atoi` (`strconv.ErrSyntax`, `strconv.ErrRange`). -/
inductive NumError where
  | ErrSyntax
  | ErrRange
deriving DecidableEq, Repr

deriving instance DecidableEq for Except

/-- Reads a run of ASCII decimal digits onto the accumulator `n`; any other
character is a syntax error. -/
def parseDigits : List Char → Nat → Option Nat
  | [], n => some n
  | c :: cs, n =>
    if '0' ≤ c ∧ c ≤ '9' then parseDigits cs (n * 10 + (c.toNat - '0'.toNat)) else none

/-- Go `strconv.Atoi` for a 64-bit `int`: an optional sign, then one or more
decimal digits and nothing else; the value must fit the type. -/
def Atoi (s : String) : Except NumError Int :=
  match s.data with
  | [] => .error .ErrSyntax
  | c :: cs =>
    let body := if c = '-' ∨ c = '+' then cs else c :: cs
    if body = [] then .error .ErrSyntax
    else
      match parseDigits body 0 with
      | none => .error .ErrSyntax
      | some n =>
        if c = '-' then
          if n ≤ 2 ^ 63 then .ok (-(n : Int)) else .error .ErrRange
        else
          if n < 2 ^ 63 then .ok (n : Int) else .error .ErrRange

/-- The decimal digits of `n`, most significant first; `fuel` bounds the number
of digits produced. -/
def natDigits : Nat → Nat → List Char
  | 0, _ => []
  | fuel + 1, n =>
    if n < 10 then [Char.ofNat ('0'.toNat + n)]
    else natDigits fuel (n / 10) ++ [Char.ofNat ('0'.toNat + n % 10)]

/-- Go `strconv.FormatInt(i, 10)`. -/
def FormatInt (i : Int) : String :=
  match i with
  | Int.ofNat n => String.mk (natDigits (n + 1) n)
  | Int.negSucc n => String.mk ('-' :: natDigits (n + 2) (n + 1))

/-- Go `formatDate` (lines 371-380).  `len` counts bytes; the slices are taken
on a string of ASCII characters. -/
def formatDate (d : Option Int) : String :=
  match d with
  | none => "Nunca"
  | some v =>
    let dateStr := FormatInt v
    if dateStr.utf8ByteSize ≠ 8 then "Fecha inválida"
    else
      String.mk (dateStr.data.take 4) ++ "-" ++ String.mk ((dateStr.data.drop 4).take 2) ++
        "-" ++ String.mk ((dateStr.data.drop 6).take 2)

/-! ## The workflow: `model` and `model.Update` -/

/-- What a `list.Item` of this program can be: the two view types. -/
inductive Item where
  | student (s : Student)
  | companion (c : Companion)
deriving DecidableEq, Repr

/-- Go `appState` (lines 60-67). -/
inductive appState where
  | stateStudentList
  | stateCompanionList
  | stateAssigningDate
  | stateAddingStudent
deriving DecidableEq, Repr

/-- A `tea.Msg`: a resize, a key press (carrying `msg.String()`), or any other
message of the runtime. -/
inductive Msg where
  | WindowSizeMsg (Width Height : Int)
  | KeyMsg (keypress : String)
  | other (tag : Nat)
deriving DecidableEq, Repr

/-- A `tea.Cmd`: none, `tea.Quit`, the blink command of the text input, or a
command issued by a widget. -/
inductive Cmd where
  | nil
  | Quit
  | Blink
  | widget (tag : Nat)
deriving DecidableEq, Repr

/-- The fields of `list.Model` the program reads and writes, and the state `L`
the widget keeps to itself (cursor, page, filter). -/
structure ListModel (L : Type) where
  items : List Item
  Title : String
  widget : L

/-- The fields of `textinput.Model` the program reads and writes, and the state
`T` the widget keeps to itself. -/
structure TextInput (T : Type) where
  value : String
  Placeholder : String
  CharLimit : Nat
  Width : Nat
  widget : T

/-- The terminal widgets are external (`bubbles/list`, `bubbles/textinput`).
They enter the model through the operations `main.go` calls on them, each left
arbitrary.  What is fixed is the interface: the items of a list are those last
given to `SetItems`, and `SelectedItem()` is one of them, at the position
`listIndex` reports, or nil. -/
structure Shell (L T : Type) where
  listNew : L
  listSetItems : L → List Item → L
  listSetSize : L → Int → Int → L
  listFiltering : L → List Item → Bool
  listIndex : L → List Item → Option Nat
  listUpdate : L → List Item → Msg → L × Cmd
  textNew : TextInput T
  textSetValue : TextInput T → String → TextInput T
  textUpdate : TextInput T → Msg → TextInput T × Cmd

/-- Go `model` (lines 69-77).  Field `db` is the content of the database the
handle refers to; this program is its only writer. -/
structure model (L T : Type) where
  db : DB
  list : ListModel L
  textInput : TextInput T
  state : appState
  selectedStudent : Student
  selectedCompanion : Companion
  err : Option String

variable {L T : Type}

/-- The call `m.list.SetItems(items)`. -/
def SetItems (sh : Shell L T) (l : ListModel L) (items : List Item) : ListModel L :=
  { l with items := items, widget := sh.listSetItems l.widget items }

/-- The call `m.list.SelectedItem()`. -/
def SelectedItem (sh : Shell L T) (l : ListModel L) : Option Item :=
  match sh.listIndex l.widget l.items with
  | none => none
  | some i => l.items.get? i

/-- Go `initialModel` (lines 79-101). -/
def initialModel (sh : Shell L T) (db : DB) : model L T :=
  { db := db
    list := SetItems sh ⟨[], "Seleccionar Estudiante", sh.listNew⟩
      ((fetchStudents db).map Item.student)
    textInput := sh.textNew
    state := .stateStudentList
    selectedStudent := ⟨0, "", none, false⟩
    selectedCompanion := ⟨0, "", none, none⟩
    err := none }

/-- The closing switch of `Update` (lines 220-227): the message goes to the
widget of the current state. -/
def forward (sh : Shell L T) (m : model L T) (msg : Msg) : model L T × Cmd :=
  match m.state with
  | .stateStudentList | .stateCompanionList =>
    let r := sh.listUpdate m.list.widget m.list.items msg
    ({ m with list := { m.list with widget := r.1 } }, r.2)
  | .stateAssigningDate | .stateAddingStudent =>
    let r := sh.textUpdate m.textInput msg
    ({ m with textInput := r.1 }, r.2)

/-- Go `model.Update` (lines 107-228).  `now` is `time.Now().Format("20060102")`
at the moment of the call.  `m.textInput.Focus()` returns the blink command;
the focus flag it sets is set since `initialModel` and never cleared. -/
def Update (sh : Shell L T) (now : String) (m : model L T) (msg : Msg) : model L T × Cmd :=
  match msg with
  | .WindowSizeMsg Width Height =>
    forward sh
      { m with list := { m.list with
          widget := sh.listSetSize m.list.widget (Width - 2 - 2) (Height - 1 - 1) } } msg
  | .other _ => forward sh m msg
  | .KeyMsg keypress =>
    if m.err.isSome then ({ m with err := none }, .nil)
    else
      match m.state with
      | .stateStudentList =>
        if sh.listFiltering m.list.widget m.list.items then forward sh m msg
        else if keypress = "ctrl+c" ∨ keypress = "q" then (m, .Quit)
        else if keypress = "a" then
          ({ m with
              state := .stateAddingStudent
              textInput := sh.textSetValue
                { m.textInput with
                  Placeholder := "Nombre del nuevo estudiante", CharLimit := 50, Width := 50 }
                "" }, .Blink)
        else if keypress = "enter" then
          if m.list.items.length > 0 then
            match SelectedItem sh m.list with
            | some (.student selected) =>
              forward sh
                { m with
                  selectedStudent := selected
                  state := .stateCompanionList
                  list := SetItems sh
                    { m.list with Title := "Asignar acompañante para: " ++ selected.Name }
                    ((fetchCompanions m.db selected.ID).map Item.companion) } msg
            | _ => forward sh m msg
          else forward sh m msg
        else if keypress = "h" then
          if m.list.items.length > 0 then
            match SelectedItem sh m.list with
            | some (.student selected) =>
              match toggleStudentHidden m.db selected.ID (!selected.Hidden) with
              | .error e => ({ m with err := some e }, .nil)
              | .ok db' =>
                forward sh
                  { m with
                    db := db'
                    list := SetItems sh m.list ((fetchStudents db').map Item.student) } msg
            | _ => forward sh m msg
          else forward sh m msg
        else forward sh m msg
      | .stateCompanionList =>
        if keypress = "ctrl+c" ∨ keypress = "q" then (m, .Quit)
        else if keypress = "enter" then
          match SelectedItem sh m.list with
          | some (.companion selected) =>
            ({ m with
                selectedCompanion := selected
                state := .stateAssigningDate
                textInput := sh.textSetValue
                  { m.textInput with Placeholder := "YYYYMMDD", CharLimit := 8, Width := 20 }
                  now }, .Blink)
          | _ => forward sh m msg
        else forward sh m msg
      | .stateAssigningDate =>
        if keypress = "ctrl+c" ∨ keypress = "q" then (m, .Quit)
        else if keypress = "enter" then
          let dateStr := m.textInput.value
          match Atoi dateStr with
          | .error _ =>
            ({ m with err := some "fecha inválida, debe ser formato YYYYMMDD" }, .nil)
          | .ok date =>
            if dateStr.utf8ByteSize ≠ 8 then
              ({ m with err := some "fecha inválida, debe ser formato YYYYMMDD" }, .nil)
            else
              match createAssignment m.db m.selectedStudent.ID m.selectedCompanion.ID date with
              | .error e => ({ m with err := some e }, .nil)
              | .ok db' =>
                forward sh
                  { m with
                    db := db'
                    state := .stateStudentList
                    list := SetItems sh { m.list with Title := "Seleccionar Estudiante" }
                      ((fetchStudents db').map Item.student) } msg
        else forward sh m msg
      | .stateAddingStudent =>
        if keypress = "ctrl+c" ∨ keypress = "q" ∨ keypress = "esc" then
          ({ m with state := .stateStudentList, err := none }, .nil)
        else if keypress = "enter" then
          let studentName := m.textInput.value
          if studentName = "" then
            ({ m with err := some "el nombre no puede estar vacío" }, .nil)
          else
            match createStudent m.db studentName with
            | .error e => ({ m with err := some e }, .nil)
            | .ok db' =>
              forward sh
                { m with
                  db := db'
                  state := .stateStudentList
                  list := SetItems sh m.list ((fetchStudents db').map Item.student) } msg
        else forward sh m msg

/-- A run of the program: the messages, each with the clock reading at its
arrival, go through `Update` one after the other. -/
def runUpdates (sh : Shell L T) (m : model L T) : List (String × Msg) → model L T
  | [] => m
  | e :: rest => runUpdates sh (Update sh e.1 m e.2).1 rest

/-- A small concrete shell: the widget state of the list is a cursor moved by
the keys "down" and "up", never filtering; the text input appends the
one-character keys it receives, up to `CharLimit`, and "backspace" deletes. -/
def plainShell : Shell Nat Unit where
  listNew := 0
  listSetItems := fun c _ => c
  listSetSize := fun c _ _ => c
  listFiltering := fun _ _ => false
  listIndex := fun c items => if c < items.length then some c else none
  listUpdate := fun c items msg =>
    match msg with
    | .KeyMsg "down" => (if c + 1 < items.length then c + 1 else c, .nil)
    | .KeyMsg "up" => (c - 1, .nil)
    | _ => (c, .nil)
  textNew := ⟨"", "", 0, 0, ()⟩
  textSetValue := fun t s => { t with value := s }
  textUpdate := fun t msg =>
    match msg with
    | .KeyMsg "backspace" => ({ t with value := String.mk t.value.data.dropLast }, .nil)
    | .KeyMsg k =>
      if k.length = 1 ∧ t.value.length < t.CharLimit then ({ t with value := t.value ++ k }, .nil)
      else (t, .nil)
    | _ => (t, .nil)

/-! ## Specification vocabulary, invariant and concrete stores -/

/-- Person `sid` takes part in assignment `a`, as main or as assistant. -/
def involves (sid : Int) (a : AssignmentRow) : Prop :=
  a.main_student = sid ∨ a.assistant_student = sid

/-- Assignment `a` pairs the persons `x` and `y`, in either order. -/
def pairs (x y : Int) (a : AssignmentRow) : Prop :=
  (a.main_student = x ∧ a.assistant_student = y) ∨
    (a.main_student = y ∧ a.assistant_student = x)

/-- The nullable date `d` is the latest date among the assignments of the store
that satisfy `P`: NULL exactly when none satisfies `P`, else the date of one
that does, not exceeded by any other. -/
def IsMaxDate (db : DB) (P : AssignmentRow → Prop) : Option Int → Prop
  | none => ∀ a ∈ db.assignments, ¬ P a
  | some v =>
    (∃ a ∈ db.assignments, P a ∧ a.date = v) ∧ ∀ a ∈ db.assignments, P a → a.date ≤ v

/-- Strict version of the order of `fetchStudents`: older date first, NULL
before every date, equal dates by strictly increasing name. -/
def studentBefore (a b : Student) : Prop :=
  nullLt a.LastAssignmentDate b.LastAssignmentDate ∨
    (a.LastAssignmentDate = b.LastAssignmentDate ∧ a.Name < b.Name)

instance involves_decidable (sid : Int) : DecidablePred (involves sid) := fun a => by
  unfold involves; infer_instance

instance pairs_decidable (x y : Int) : DecidablePred (pairs x y) := fun a => by
  unfold pairs; infer_instance

/-- The store of three visible students added in the order Bob, Ana, Eva, with
no assignment. -/
def tieStore : DB :=
  { students := [⟨1, "Bob", false⟩, ⟨2, "Ana", false⟩, ⟨3, "Eva", false⟩]
    assignments := []
    foreign_keys := true }

/-- Ana and Bob, already paired once, on 2025-01-01. -/
def pairedLaterStore : DB :=
  { students := [⟨1, "Ana", false⟩, ⟨2, "Bob", false⟩]
    assignments := [⟨1, 1, 2, 20250101⟩]
    foreign_keys := true }

/-- The invariant of the workflow: no assignment of the store pairs a person
with itself; in the companion list state no companion on the list is the
selected student; in the date entry state the selected companion is not the
selected student. -/
def DistinctPairs (m : model L T) : Prop :=
  (∀ a ∈ m.db.assignments, a.main_student ≠ a.assistant_student) ∧
    (m.state = .stateCompanionList →
      ∀ c, Item.companion c ∈ m.list.items → c.ID ≠ m.selectedStudent.ID) ∧
    (m.state = .stateAssigningDate → m.selectedCompanion.ID ≠ m.selectedStudent.ID)

/-- The store of the scenario: Ana without assignment, Bob last active on
2023-01-01 (with Cid, who is hidden). -/
def scenarioStore : DB :=
  { students := [⟨1, "Ana", false⟩, ⟨2, "Bob", false⟩, ⟨3, "Cid", true⟩]
    assignments := [⟨1, 2, 3, 20230101⟩]
    foreign_keys := true }

/-- The model after "enter" on Ana and "enter" on Bob, on 2024-03-15. -/
def scenarioEntry : model Nat Unit :=
  runUpdates plainShell (initialModel plainShell scenarioStore)
    [("20240315", .KeyMsg "enter"), ("20240315", .KeyMsg "enter")]

/-- The date entry model after one "backspace": the text is "2024031". -/
def shortDateEntry : model Nat Unit :=
  runUpdates plainShell scenarioEntry [("20240315", .KeyMsg "backspace")]

/-- The model after "a" on the student list of `tieStore`: adding a student. -/
def addingEntry : model Nat Unit :=
  runUpdates plainShell (initialModel plainShell tieStore) [("20240315", .KeyMsg "a")]

/-- Ana was paired with Bob on 2024-01-01 and with Eva on 2023-01-01. -/
def rotationStore : DB :=
  { students := [⟨1, "Ana", false⟩, ⟨2, "Bob", false⟩, ⟨3, "Eva", false⟩]
    assignments := [⟨1, 1, 2, 20240101⟩, ⟨2, 3, 1, 20230101⟩]
    foreign_keys := true }

/-! # Theorems -/

/-! ## Lemmas on the SQL building blocks -/

theorem sqlMax_eq_none (l : List (Option Int)) :
    sqlMax l = none ↔ ∀ x ∈ l, x = none := by
  induction l with
  | nil => simp [sqlMax]
  | cons h t ih =>
    cases h with
    | none => simp [sqlMax, ih]
    | some x =>
      cases ht : sqlMax t <;> simp [sqlMax, ht]

theorem sqlMax_eq_some (l : List (Option Int)) (d : Int) :
    sqlMax l = some d ↔ some d ∈ l ∧ ∀ e, some e ∈ l → e ≤ d := by
  induction l generalizing d with
  | nil => simp [sqlMax]
  | cons h t ih =>
    cases h with
    | none => simp [sqlMax, ih]
    | some x =>
      cases ht : sqlMax t with
      | none =>
        have hn := (sqlMax_eq_none t).1 ht
        simp only [sqlMax, ht, Option.some.injEq, List.mem_cons]
        constructor
        · rintro rfl
          refine ⟨Or.inl rfl, ?_⟩
          rintro e (he | he)
          · exact le_of_eq he
          · have := hn _ he
            simp at this
        · rintro ⟨h1 | h1, _⟩
          · exact h1.symm
          · have := hn _ h1
            simp at this
      | some y =>
        have hy := (ih y).1 ht
        simp only [sqlMax, ht, Option.some.injEq, List.mem_cons]
        constructor
        · rintro rfl
          constructor
          · rcases le_total x y with hxy | hxy
            · right
              rw [max_eq_right hxy]
              exact hy.1
            · left
              rw [max_eq_left hxy]
          · rintro e (he | he)
            · rw [he]
              exact le_max_left _ _
            · exact le_trans (hy.2 e he) (le_max_right _ _)
        · rintro ⟨h1, h2⟩
          apply le_antisymm
          · apply max_le
            · exact h2 x (Or.inl rfl)
            · exact h2 y (Or.inr hy.1)
          · rcases h1 with h1 | h1
            · rw [h1]
              exact le_max_left _ _
            · exact le_trans (hy.2 d h1) (le_max_right _ _)

theorem IsMaxDate_unique (db : DB) (P : AssignmentRow → Prop) (x y : Option Int)
    (hx : IsMaxDate db P x) (hy : IsMaxDate db P y) : x = y := by
  cases x with
  | none =>
    cases y with
    | none => rfl
    | some v =>
      obtain ⟨⟨a, ha, hP, _⟩, _⟩ := hy
      exact absurd hP (hx a ha)
  | some u =>
    cases y with
    | none =>
      obtain ⟨⟨a, ha, hP, _⟩, _⟩ := hx
      exact absurd hP (hy a ha)
    | some v =>
      obtain ⟨⟨a, ha, hP, hd⟩, hmax⟩ := hx
      obtain ⟨⟨b, hb, hQ, he⟩, hmax'⟩ := hy
      have h1 : u ≤ v := hd ▸ hmax' a ha hP
      have h2 : v ≤ u := he ▸ hmax b hb hQ
      rw [le_antisymm h1 h2]

/-- The aggregate `MAX(date)` over the rows selected by a decidable condition
is the latest date among them. -/
theorem sqlMax_filter_IsMaxDate (db : DB) (P : AssignmentRow → Prop) [DecidablePred P] :
    IsMaxDate db P
      (sqlMax ((db.assignments.filter fun a => decide (P a)).map fun a => some a.date)) := by
  cases h : sqlMax ((db.assignments.filter fun a => decide (P a)).map fun a => some a.date) with
  | none =>
    intro a ha hP
    have := (sqlMax_eq_none _).1 h (some a.date)
      (List.mem_map.2 ⟨a, List.mem_filter.2 ⟨ha, by simpa using hP⟩, rfl⟩)
    simp at this
  | some v =>
    obtain ⟨h1, h2⟩ := (sqlMax_eq_some _ _).1 h
    constructor
    · obtain ⟨a, ha, hav⟩ := List.mem_map.1 h1
      obtain ⟨ha1, ha2⟩ := List.mem_filter.1 ha
      exact ⟨a, ha1, by simpa using ha2, by simpa using hav⟩
    · intro a ha hP
      exact h2 a.date (List.mem_map.2 ⟨a, List.mem_filter.2 ⟨ha, by simpa using hP⟩, rfl⟩)

theorem lastAny_IsMaxDate (db : DB) (sid : Int) :
    IsMaxDate db (involves sid) (lastAny db sid) :=
  sqlMax_filter_IsMaxDate db (involves sid)

theorem lastTogether_IsMaxDate (db : DB) (m sid : Int) :
    IsMaxDate db (pairs m sid) (lastTogether db m sid) :=
  sqlMax_filter_IsMaxDate db (pairs m sid)

theorem mem_activityRows (db : DB) (x : Int × Int) :
    x ∈ activityRows db ↔ ∃ a ∈ db.assignments, involves x.1 a ∧ a.date = x.2 := by
  unfold activityRows involves
  simp only [List.mem_append, List.mem_map]
  constructor
  · rintro (⟨a, ha, rfl⟩ | ⟨a, ha, rfl⟩)
    · exact ⟨a, ha, Or.inl rfl, rfl⟩
    · exact ⟨a, ha, Or.inr rfl, rfl⟩
  · rintro ⟨a, ha, h1 | h1, h2⟩
    · exact Or.inl ⟨a, ha, Prod.ext h1 h2⟩
    · exact Or.inr ⟨a, ha, Prod.ext h1 h2⟩

theorem mem_leftJoin (ss : List StudentRow) (a : List (Int × Int)) (s : StudentRow)
    (o : Option Int) :
    (s, o) ∈ leftJoin ss a ↔
      s ∈ ss ∧ ((o = none ∧ ∀ x ∈ a, x.1 ≠ s.id) ∨ ∃ x ∈ a, x.1 = s.id ∧ o = some x.2) := by
  unfold leftJoin
  simp only [List.mem_flatMap]
  constructor
  · rintro ⟨s', hs', hmem⟩
    cases hf : a.filter (fun x => decide (s'.id = x.1)) with
    | nil =>
      rw [hf] at hmem
      simp only [List.mem_singleton, Prod.mk.injEq] at hmem
      obtain ⟨rfl, rfl⟩ := hmem
      refine ⟨hs', Or.inl ⟨rfl, ?_⟩⟩
      intro x hx hxs
      have : x ∈ a.filter (fun x => decide (s.id = x.1)) :=
        List.mem_filter.2 ⟨hx, by simpa using hxs.symm⟩
      rw [hf] at this
      exact absurd this (List.not_mem_nil x)
    | cons y m =>
      rw [hf] at hmem
      simp only [List.mem_map, Prod.mk.injEq] at hmem
      obtain ⟨z, hz, rfl, rfl⟩ := hmem
      rw [← hf] at hz
      obtain ⟨hz1, hz2⟩ := List.mem_filter.1 hz
      refine ⟨hs', Or.inr ⟨z, hz1, ?_, rfl⟩⟩
      simpa using (of_decide_eq_true hz2).symm
  · rintro ⟨hs, h⟩
    refine ⟨s, hs, ?_⟩
    cases hf : a.filter (fun x => decide (s.id = x.1)) with
    | nil =>
      rcases h with ⟨rfl, _⟩ | ⟨x, hx, hxs, _⟩
      · simp
      · have : x ∈ a.filter (fun x => decide (s.id = x.1)) :=
          List.mem_filter.2 ⟨hx, by simpa using hxs.symm⟩
        rw [hf] at this
        exact absurd this (List.not_mem_nil x)
    | cons y m =>
      rcases h with ⟨_, hno⟩ | ⟨x, hx, hxs, rfl⟩
      · have hy : y ∈ a.filter (fun x => decide (s.id = x.1)) := by
          rw [hf]
          exact List.mem_cons_self y m
        obtain ⟨hy1, hy2⟩ := List.mem_filter.1 hy
        exact absurd (of_decide_eq_true hy2).symm (hno y hy1)
      · have : x ∈ a.filter (fun x => decide (s.id = x.1)) :=
          List.mem_filter.2 ⟨hx, by simpa using hxs.symm⟩
        rw [hf] at this
        simp only [List.mem_map, Prod.mk.injEq, true_and]
        exact ⟨x, this, rfl⟩

/-- A row of the filtered join: a visible student with the date of one of its
assignments, or with NULL when it has none. -/
theorem mem_visibleJoin (db : DB) (s : StudentRow) (o : Option Int) :
    (s, o) ∈ visibleJoin db ↔
      s ∈ db.students ∧ s.hidden = false ∧
        ((o = none ∧ ∀ a ∈ db.assignments, ¬ involves s.id a) ∨
          ∃ a ∈ db.assignments, involves s.id a ∧ o = some a.date) := by
  unfold visibleJoin
  rw [List.mem_filter, mem_leftJoin]
  simp only [beq_iff_eq]
  constructor
  · rintro ⟨⟨hs, h⟩, hv⟩
    refine ⟨hs, hv, ?_⟩
    rcases h with ⟨rfl, hno⟩ | ⟨x, hx, hxs, rfl⟩
    · left
      refine ⟨rfl, fun a ha hinv => ?_⟩
      exact hno (s.id, a.date) ((mem_activityRows db _).2 ⟨a, ha, hinv, rfl⟩) rfl
    · right
      obtain ⟨a, ha, hinv, hd⟩ := (mem_activityRows db x).1 hx
      exact ⟨a, ha, hxs ▸ hinv, by rw [hd]⟩
  · rintro ⟨hs, hv, h⟩
    refine ⟨⟨hs, ?_⟩, hv⟩
    rcases h with ⟨rfl, hno⟩ | ⟨a, ha, hinv, rfl⟩
    · left
      refine ⟨rfl, fun x hx hxs => ?_⟩
      obtain ⟨a, ha, hinv, _⟩ := (mem_activityRows db x).1 hx
      exact hno a ha (hxs ▸ hinv)
    · right
      exact ⟨(s.id, a.date), (mem_activityRows db _).2 ⟨a, ha, hinv, rfl⟩, rfl, rfl⟩

/-- Every visible student has at least one row in the filtered join. -/
theorem exists_visibleJoin (db : DB) (s : StudentRow) (hs : s ∈ db.students)
    (hv : s.hidden = false) : ∃ o, (s, o) ∈ visibleJoin db := by
  by_cases h : ∃ a ∈ db.assignments, involves s.id a
  · obtain ⟨a, ha, hinv⟩ := h
    exact ⟨some a.date, (mem_visibleJoin db s _).2 ⟨hs, hv, Or.inr ⟨a, ha, hinv, rfl⟩⟩⟩
  · refine ⟨none, (mem_visibleJoin db s _).2 ⟨hs, hv, Or.inl ⟨rfl, ?_⟩⟩⟩
    intro a ha hinv
    exact h ⟨a, ha, hinv⟩

theorem mem_groupKeys_visibleJoin (db : DB) (k : Int × String) :
    k ∈ groupKeys (visibleJoin db) ↔
      ∃ s ∈ db.students, s.hidden = false ∧ k = (s.id, s.name) := by
  unfold groupKeys
  rw [List.mem_dedup, List.mem_map]
  constructor
  · rintro ⟨⟨s, o⟩, hr, rfl⟩
    obtain ⟨hs, hv, _⟩ := (mem_visibleJoin db s o).1 hr
    exact ⟨s, hs, hv, rfl⟩
  · rintro ⟨s, hs, hv, rfl⟩
    obtain ⟨o, ho⟩ := exists_visibleJoin db s hs hv
    exact ⟨(s, o), ho, rfl⟩

/-- The output row of the group of a visible student: its id and name, not
hidden, and the latest date of its assignments. -/
theorem studentOfGroup_visibleJoin (db : DB) (s : StudentRow) (hs : s ∈ db.students)
    (hv : s.hidden = false) :
    studentOfGroup (visibleJoin db) (s.id, s.name) = ⟨s.id, s.name, lastAny db s.id, false⟩ := by
  have hmem : ∀ r, r ∈ groupRows (visibleJoin db) (s.id, s.name) ↔
      r ∈ visibleJoin db ∧ r.1.id = s.id ∧ r.1.name = s.name := by
    intro r
    unfold groupRows
    rw [List.mem_filter]
    simp
  have hdate : IsMaxDate db (involves s.id)
      (sqlMax ((groupRows (visibleJoin db) (s.id, s.name)).map fun r => r.2)) := by
    cases h : sqlMax ((groupRows (visibleJoin db) (s.id, s.name)).map fun r => r.2) with
    | none =>
      intro a ha hinv
      have h1 : (s, some a.date) ∈ groupRows (visibleJoin db) (s.id, s.name) :=
        (hmem _).2 ⟨(mem_visibleJoin db s _).2 ⟨hs, hv, Or.inr ⟨a, ha, hinv, rfl⟩⟩, rfl, rfl⟩
      have := (sqlMax_eq_none _).1 h (some a.date) (List.mem_map.2 ⟨_, h1, rfl⟩)
      simp at this
    | some v =>
      obtain ⟨h1, h2⟩ := (sqlMax_eq_some _ _).1 h
      constructor
      · obtain ⟨⟨s', o⟩, hr, hro⟩ := List.mem_map.1 h1
        simp only at hro
        subst hro
        obtain ⟨hr1, hr2, _⟩ := (hmem _).1 hr
        obtain ⟨_, _, hcase⟩ := (mem_visibleJoin db s' _).1 hr1
        rcases hcase with ⟨hcontra, _⟩ | ⟨a, ha, hinv, hd⟩
        · simp at hcontra
        · simp only at hr2
          rw [hr2] at hinv
          exact ⟨a, ha, hinv, (Option.some.inj hd).symm⟩
      · intro a ha hinv
        have h1 : (s, some a.date) ∈ groupRows (visibleJoin db) (s.id, s.name) :=
          (hmem _).2 ⟨(mem_visibleJoin db s _).2 ⟨hs, hv, Or.inr ⟨a, ha, hinv, rfl⟩⟩, rfl, rfl⟩
        exact h2 a.date (List.mem_map.2 ⟨_, h1, rfl⟩)
  have hhid : (match groupRows (visibleJoin db) (s.id, s.name) with
      | [] => false
      | r :: _ => r.1.hidden) = false := by
    cases hg : groupRows (visibleJoin db) (s.id, s.name) with
    | nil => rfl
    | cons r t =>
      have hr : r ∈ groupRows (visibleJoin db) (s.id, s.name) := by
        rw [hg]
        exact List.mem_cons_self r t
      obtain ⟨hr1, _⟩ := (hmem r).1 hr
      exact ((mem_visibleJoin db r.1 r.2).1 hr1).2.1
  unfold studentOfGroup
  simp only [hhid]
  rw [IsMaxDate_unique db _ _ _ hdate (lastAny_IsMaxDate db s.id)]

/-- The rows of `fetchStudents`: one for each visible student, carrying its id,
its name and the latest date of its assignments. -/
theorem mem_fetchStudents (db : DB) (r : Student) :
    r ∈ fetchStudents db ↔
      ∃ s ∈ db.students, s.hidden = false ∧ r = ⟨s.id, s.name, lastAny db s.id, false⟩ := by
  unfold fetchStudents
  simp only [List.mem_insertionSort, List.mem_map]
  constructor
  · rintro ⟨k, hk, rfl⟩
    obtain ⟨s, hs, hv, rfl⟩ := (mem_groupKeys_visibleJoin db k).1 hk
    exact ⟨s, hs, hv, studentOfGroup_visibleJoin db s hs hv⟩
  · rintro ⟨s, hs, hv, rfl⟩
    exact ⟨(s.id, s.name), (mem_groupKeys_visibleJoin db _).2 ⟨s, hs, hv, rfl⟩,
      studentOfGroup_visibleJoin db s hs hv⟩

theorem mem_fetchCompanions (db : DB) (m : Int) (c : Companion) :
    c ∈ fetchCompanions db m ↔
      ∃ s ∈ db.students, s.id ≠ m ∧ s.hidden = false ∧
        c = ⟨s.id, s.name, lastTogether db m s.id, lastAny db s.id⟩ := by
  unfold fetchCompanions
  simp only [List.mem_insertionSort, List.mem_map, List.mem_filter, Bool.and_eq_true,
    decide_eq_true_eq, beq_iff_eq]
  constructor
  · rintro ⟨s, ⟨hs, hne, hv⟩, rfl⟩
    exact ⟨s, hs, hne, hv, rfl⟩
  · rintro ⟨s, hs, hne, hv, rfl⟩
    exact ⟨s, ⟨hs, hne, hv⟩, rfl⟩

/-! ## The two orders -/

theorem nullLt_irrefl (a : Option Int) : ¬ nullLt a a := by
  cases a <;> simp [nullLt]

theorem nullLt_trans {a b c : Option Int} (h1 : nullLt a b) (h2 : nullLt b c) : nullLt a c := by
  cases a <;> cases b <;> cases c <;> simp_all [nullLt]
  omega

theorem nullLt_asymm {a b : Option Int} (h1 : nullLt a b) : ¬ nullLt b a := by
  cases a <;> cases b <;> simp_all [nullLt]
  omega

theorem nullLt_trichotomy (a b : Option Int) : nullLt a b ∨ a = b ∨ nullLt b a := by
  cases a <;> cases b <;> simp [nullLt]
  omega

theorem studentOrder_total (a b : Student) : studentOrder a b ∨ studentOrder b a := by
  unfold studentOrder
  rcases nullLt_trichotomy a.LastAssignmentDate b.LastAssignmentDate with h | h | h
  · exact Or.inl (Or.inl h)
  · rcases le_total a.Name b.Name with hn | hn
    · exact Or.inl (Or.inr ⟨h, hn⟩)
    · exact Or.inr (Or.inr ⟨h.symm, hn⟩)
  · exact Or.inr (Or.inl h)

theorem studentOrder_trans {a b c : Student} (h1 : studentOrder a b) (h2 : studentOrder b c) :
    studentOrder a c := by
  unfold studentOrder at *
  rcases h1 with h1 | ⟨h1, n1⟩
  · rcases h2 with h2 | ⟨h2, _⟩
    · exact Or.inl (nullLt_trans h1 h2)
    · exact Or.inl (h2 ▸ h1)
  · rcases h2 with h2 | ⟨h2, n2⟩
    · exact Or.inl (h1 ▸ h2)
    · exact Or.inr ⟨h1.trans h2, le_trans n1 n2⟩

theorem companionOrder_total (a b : Companion) : companionOrder a b ∨ companionOrder b a := by
  unfold companionOrder
  rcases nullLt_trichotomy a.LastTogetherDate b.LastTogetherDate with h | h | h
  · exact Or.inl (Or.inl h)
  · rcases nullLt_trichotomy a.LastAnyAssignmentDate b.LastAnyAssignmentDate with g | g | g
    · exact Or.inl (Or.inr ⟨h, Or.inl g⟩)
    · exact Or.inl (Or.inr ⟨h, Or.inr g⟩)
    · exact Or.inr (Or.inr ⟨h.symm, Or.inl g⟩)
  · exact Or.inr (Or.inl h)

theorem companionOrder_trans {a b c : Companion} (h1 : companionOrder a b)
    (h2 : companionOrder b c) : companionOrder a c := by
  unfold companionOrder at *
  rcases h1 with h1 | ⟨h1, n1⟩
  · rcases h2 with h2 | ⟨h2, _⟩
    · exact Or.inl (nullLt_trans h1 h2)
    · exact Or.inl (h2 ▸ h1)
  · rcases h2 with h2 | ⟨h2, n2⟩
    · exact Or.inl (h1 ▸ h2)
    · refine Or.inr ⟨h1.trans h2, ?_⟩
      rcases n1 with n1 | n1
      · rcases n2 with n2 | n2
        · exact Or.inl (nullLt_trans n1 n2)
        · exact Or.inl (n2 ▸ n1)
      · rcases n2 with n2 | n2
        · exact Or.inl (n1 ▸ n2)
        · exact Or.inr (n1.trans n2)

theorem fetchStudents_sorted (db : DB) : (fetchStudents db).Sorted studentOrder := by
  haveI : IsTotal Student studentOrder := ⟨studentOrder_total⟩
  haveI : IsTrans Student studentOrder := ⟨fun _ _ _ => studentOrder_trans⟩
  exact List.sorted_insertionSort studentOrder _

theorem fetchCompanions_sorted (db : DB) (m : Int) :
    (fetchCompanions db m).Sorted companionOrder := by
  haveI : IsTotal Companion companionOrder := ⟨companionOrder_total⟩
  haveI : IsTrans Companion companionOrder := ⟨fun _ _ _ => companionOrder_trans⟩
  exact List.sorted_insertionSort companionOrder _

/-- With unique names, two students of the table that share a name are the same row. -/
theorem name_injOn (db : DB) (hnames : (db.students.map fun s => s.name).Nodup)
    {s t : StudentRow} (hs : s ∈ db.students) (ht : t ∈ db.students) (h : s.name = t.name) :
    s = t :=
  List.inj_on_of_nodup_map hnames hs ht h

/-- With unique names, the rows of `fetchStudents` are the visible students,
each once: the (id, name) pairs listed are a rearrangement of theirs. -/
theorem fetchStudents_perm (db : DB) (hnames : (db.students.map fun s => s.name).Nodup) :
    ((fetchStudents db).map fun r => (r.ID, r.Name)).Perm
      ((db.students.filter fun s => s.hidden == false).map fun s => (s.id, s.name)) := by
  have h1 : ((fetchStudents db).map fun r => (r.ID, r.Name)).Perm
      (groupKeys (visibleJoin db)) := by
    unfold fetchStudents
    refine ((List.perm_insertionSort studentOrder _).map _).trans ?_
    rw [List.map_map]
    have : ((fun r : Student => (r.ID, r.Name)) ∘ studentOfGroup (visibleJoin db)) = id := by
      funext k
      rfl
    rw [this, List.map_id]
  refine h1.trans ?_
  have hvis : (db.students.filter fun s => s.hidden == false).Nodup :=
    (List.Nodup.of_map _ hnames).filter _
  have hnd : ((db.students.filter fun s => s.hidden == false).map
      fun s => (s.id, s.name)).Nodup := by
    refine List.Nodup.map_on ?_ hvis
    intro s hs t ht hst
    exact name_injOn db hnames (List.mem_filter.1 hs).1 (List.mem_filter.1 ht).1
      (congrArg Prod.snd hst)
  refine (List.perm_ext_iff_of_nodup (List.nodup_dedup _) hnd).2 ?_
  intro k
  change k ∈ groupKeys (visibleJoin db) ↔ _
  rw [mem_groupKeys_visibleJoin]
  simp only [List.mem_map, List.mem_filter, beq_iff_eq]
  constructor
  · rintro ⟨s, hs, hv, rfl⟩
    exact ⟨s, ⟨hs, hv⟩, rfl⟩
  · rintro ⟨s, ⟨hs, hv⟩, rfl⟩
    exact ⟨s, hs, hv, rfl⟩

theorem fetchStudents_names_nodup (db : DB) (hnames : (db.students.map fun s => s.name).Nodup) :
    ((fetchStudents db).map fun r => r.Name).Nodup := by
  have hp := (fetchStudents_perm db hnames).map Prod.snd
  rw [List.map_map, List.map_map] at hp
  refine (List.Perm.nodup_iff hp).2 ?_
  have : ((Prod.snd ∘ fun s : StudentRow => (s.id, s.name)) = fun s => s.name) := rfl
  rw [this]
  exact (List.Nodup.sublist ((List.filter_sublist _).map _) hnames)

/-- With unique names the order of `fetchStudents` is strict: no two rows tie. -/
theorem fetchStudents_strict (db : DB) (hnames : (db.students.map fun s => s.name).Nodup) :
    (fetchStudents db).Pairwise studentBefore := by
  have h1 : (fetchStudents db).Pairwise studentOrder := fetchStudents_sorted db
  have h2 : (fetchStudents db).Pairwise (fun a b => a.Name ≠ b.Name) :=
    (List.pairwise_map).1 (fetchStudents_names_nodup db hnames)
  refine (h1.and h2).imp ?_
  rintro a b ⟨hab | ⟨hd, hn⟩, hne⟩
  · exact Or.inl hab
  · exact Or.inr ⟨hd, lt_of_le_of_ne hn hne⟩

theorem studentBefore_irrefl (a : Student) : ¬ studentBefore a a := by
  rintro (h | ⟨_, h⟩)
  · exact nullLt_irrefl _ h
  · exact lt_irrefl _ h

theorem studentBefore_asymm {a b : Student} (h1 : studentBefore a b) : ¬ studentBefore b a := by
  rintro (h2 | ⟨h2, n2⟩)
  · rcases h1 with h1 | ⟨h1, _⟩
    · exact nullLt_asymm h1 h2
    · rw [h1] at h2
      exact nullLt_irrefl _ h2
  · rcases h1 with h1 | ⟨_, n1⟩
    · rw [h2] at h1
      exact nullLt_irrefl _ h1
    · exact lt_asymm n1 n2

/-- In a list sorted pairwise by `R`, an entry that cannot come after another
(neither equal to it nor `R`-after it) sits at a smaller position. -/
theorem index_lt_of_pairwise {α : Type} {R : α → α → Prop} {l : List α} (hl : l.Pairwise R)
    {i j : Nat} {x y : α} (hi : l[i]? = some x) (hj : l[j]? = some y) (hne : x ≠ y)
    (hR : ¬ R y x) : i < j := by
  by_contra hcon
  have hji : j ≤ i := Nat.le_of_not_lt hcon
  rcases Nat.eq_or_lt_of_le hji with h | h
  · subst h
    rw [hi] at hj
    exact hne (Option.some.inj hj)
  · obtain ⟨hi', hix⟩ := List.getElem?_eq_some_iff.1 hi
    obtain ⟨hj', hjy⟩ := List.getElem?_eq_some_iff.1 hj
    have := List.pairwise_iff_getElem.1 hl j i hj' hi' h
    rw [hix, hjy] at this
    exact hR this

/-! ## The ranking queries -/

/-- C1. On a store with unique names, `fetchStudents` lists exactly the
non-hidden persons, each once (its id-name pairs are a rearrangement of those
of the visible rows); every row is marked not hidden and carries the person's
last-activity date, the latest date among the assignments with the person as
main or assistant, NULL when there is none; no row bears the name of a hidden
person; the rows are in strictly ascending order of date, NULL first, equal
dates by name; and a person without assignment sits at a smaller position than
any person with one. -/
theorem fetchStudents_spec (db : DB) (hnames : (db.students.map fun s => s.name).Nodup) :
    ((fetchStudents db).map fun r => (r.ID, r.Name)).Perm
        ((db.students.filter fun s => s.hidden == false).map fun s => (s.id, s.name)) ∧
      (∀ r ∈ fetchStudents db,
        r.Hidden = false ∧ IsMaxDate db (involves r.ID) r.LastAssignmentDate) ∧
      (∀ s ∈ db.students, s.hidden = true → ∀ r ∈ fetchStudents db, r.Name ≠ s.name) ∧
      (fetchStudents db).Pairwise studentBefore ∧
      (∀ (i j : Nat) (r r' : Student), (fetchStudents db)[i]? = some r → (fetchStudents db)[j]? = some r' →
        (∀ a ∈ db.assignments, ¬ involves r.ID a) →
        (∃ a ∈ db.assignments, involves r'.ID a) → i < j) := by
  refine ⟨fetchStudents_perm db hnames, ?_, ?_, fetchStudents_strict db hnames, ?_⟩
  · intro r hr
    obtain ⟨s, _, _, rfl⟩ := (mem_fetchStudents db r).1 hr
    exact ⟨rfl, lastAny_IsMaxDate db s.id⟩
  · intro s hs hh r hr hname
    obtain ⟨t, ht, hv, rfl⟩ := (mem_fetchStudents db r).1 hr
    have := name_injOn db hnames ht hs hname
    rw [this, hh] at hv
    exact Bool.noConfusion hv
  · intro i j r r' hi hj hnone hsome
    have hr := List.getElem?_mem hi
    have hr' := List.getElem?_mem hj
    obtain ⟨s, _, _, rfl⟩ := (mem_fetchStudents db r).1 hr
    obtain ⟨t, _, _, rfl⟩ := (mem_fetchStudents db r').1 hr'
    have h1 : lastAny db s.id = none :=
      IsMaxDate_unique db (involves s.id) _ _ (lastAny_IsMaxDate db s.id) hnone
    have h2 : lastAny db t.id ≠ none := by
      intro h
      have := lastAny_IsMaxDate db t.id
      rw [h] at this
      obtain ⟨a, ha, hinv⟩ := hsome
      exact this a ha hinv
    obtain ⟨v, hv⟩ := Option.ne_none_iff_exists'.1 h2
    refine index_lt_of_pairwise (fetchStudents_strict db hnames) hi hj ?_ ?_
    · intro h
      have := congrArg Student.LastAssignmentDate h
      simp only [h1, hv] at this
      exact Option.noConfusion this
    · unfold studentBefore
      simp [h1, hv, nullLt]

/-- C3. For a main student `A` and two visible persons `b1`, `b2` other than
`A` whose last dates paired with `A` are `d1 < d2`, both appear in
`fetchCompanions db A` with those dates, and every row of `b1` is at a smaller
position than every row of `b2` (whatever their last-any-activity dates). -/
theorem fetchCompanions_older_pair_first (db : DB) (A : Int) (b1 b2 : StudentRow)
    (d1 d2 : Int) (h1 : b1 ∈ db.students) (h2 : b2 ∈ db.students)
    (hv1 : b1.hidden = false) (hv2 : b2.hidden = false) (hA1 : b1.id ≠ A) (hA2 : b2.id ≠ A)
    (hd1 : IsMaxDate db (pairs A b1.id) (some d1))
    (hd2 : IsMaxDate db (pairs A b2.id) (some d2)) (hlt : d1 < d2) :
    (∃ c ∈ fetchCompanions db A,
        c.ID = b1.id ∧ c.Name = b1.name ∧ c.LastTogetherDate = some d1) ∧
      (∃ c ∈ fetchCompanions db A,
        c.ID = b2.id ∧ c.Name = b2.name ∧ c.LastTogetherDate = some d2) ∧
      ∀ (i j : Nat) (c1 c2 : Companion), (fetchCompanions db A)[i]? = some c1 → (fetchCompanions db A)[j]? = some c2 →
        c1.ID = b1.id → c2.ID = b2.id → i < j := by
  have e1 : lastTogether db A b1.id = some d1 :=
    IsMaxDate_unique db _ _ _ (lastTogether_IsMaxDate db A b1.id) hd1
  have e2 : lastTogether db A b2.id = some d2 :=
    IsMaxDate_unique db _ _ _ (lastTogether_IsMaxDate db A b2.id) hd2
  refine ⟨⟨_, (mem_fetchCompanions db A _).2 ⟨b1, h1, hA1, hv1, rfl⟩, rfl, rfl, e1⟩,
    ⟨_, (mem_fetchCompanions db A _).2 ⟨b2, h2, hA2, hv2, rfl⟩, rfl, rfl, e2⟩, ?_⟩
  intro i j c1 c2 hi hj hc1 hc2
  obtain ⟨s, _, _, _, rfl⟩ := (mem_fetchCompanions db A c1).1 (List.getElem?_mem hi)
  obtain ⟨t, _, _, _, rfl⟩ := (mem_fetchCompanions db A c2).1 (List.getElem?_mem hj)
  simp only at hc1 hc2
  refine index_lt_of_pairwise (fetchCompanions_sorted db A) hi hj ?_ ?_
  · intro h
    have := congrArg Companion.LastTogetherDate h
    simp only [hc1, hc2, e1, e2, Option.some.injEq] at this
    omega
  · unfold companionOrder
    simp only [hc1, hc2, e1, e2, nullLt, Option.some.injEq]
    omega

/-- C2 (the code at the failing input). Adding Bob, Ana and Eva to an empty
store gives `tieStore`; there the companions of Eva tie on both dates (NULL,
NULL), and `fetchCompanions` lists Bob before Ana, the order of the table,
although "Ana" is the smaller name. -/
theorem fetchCompanions_tie_not_by_name :
    ((createStudent ⟨[], [], true⟩ "Bob").bind fun s1 =>
        (createStudent s1 "Ana").bind fun s2 => createStudent s2 "Eva") = .ok tieStore ∧
      fetchCompanions tieStore 3 = [⟨1, "Bob", none, none⟩, ⟨2, "Ana", none, none⟩] ∧
      "Ana" < "Bob" :=
  ⟨by decide, by decide, String.lt_iff_toList_lt.2 (by decide)⟩

theorem lastAny_congr (db db' : DB) (h : db'.assignments = db.assignments) (sid : Int) :
    lastAny db' sid = lastAny db sid := by
  unfold lastAny
  rw [h]

theorem lastTogether_congr (db db' : DB) (h : db'.assignments = db.assignments) (m sid : Int) :
    lastTogether db' m sid = lastTogether db m sid := by
  unfold lastTogether
  rw [h]

/-- C6. Hiding a person `bob` succeeds and leaves the assignments as they are;
afterwards no row of `fetchStudents` and no row of `fetchCompanions m`, for any
`m`, has `bob` as id; a row of any other person is listed after hiding exactly
when it was listed before, with the same dates; and the dates listed are still
the latest over all assignments of the store, those with `bob` included. -/
theorem hide_keeps_history (db : DB) (bob : Int) :
    ∃ db', toggleStudentHidden db bob true = .ok db' ∧
      db'.assignments = db.assignments ∧
      (∀ r ∈ fetchStudents db', r.ID ≠ bob) ∧
      (∀ m, ∀ c ∈ fetchCompanions db' m, c.ID ≠ bob) ∧
      (∀ r : Student, r.ID ≠ bob → (r ∈ fetchStudents db' ↔ r ∈ fetchStudents db)) ∧
      (∀ m (c : Companion), c.ID ≠ bob →
        (c ∈ fetchCompanions db' m ↔ c ∈ fetchCompanions db m)) ∧
      (∀ r ∈ fetchStudents db', IsMaxDate db (involves r.ID) r.LastAssignmentDate) ∧
      (∀ m, ∀ c ∈ fetchCompanions db' m,
        IsMaxDate db (pairs m c.ID) c.LastTogetherDate ∧
          IsMaxDate db (involves c.ID) c.LastAnyAssignmentDate) := by
  refine ⟨_, rfl, rfl, ?_⟩
  generalize hdb : ({ db with students := db.students.map fun s =>
    if s.id = bob then { s with hidden := true } else s } : DB) = db'
  have hA : db'.assignments = db.assignments := by rw [← hdb]
  have hS : ∀ t, t ∈ db'.students ↔
      ∃ s ∈ db.students, (if s.id = bob then { s with hidden := true } else s) = t := by
    intro t
    rw [← hdb]
    simp only [List.mem_map]
  -- a visible row of the new table is a row of the old one, other than `bob`
  have hvis : ∀ t, (t ∈ db'.students ∧ t.hidden = false) ↔
      (t ∈ db.students ∧ t.hidden = false ∧ t.id ≠ bob) := by
    intro t
    rw [hS]
    constructor
    · rintro ⟨⟨s, hs, hst⟩, hv⟩
      by_cases hb : s.id = bob
      · rw [if_pos hb] at hst
        rw [← hst] at hv
        exact Bool.noConfusion hv
      · rw [if_neg hb] at hst
        subst hst
        exact ⟨hs, hv, hb⟩
    · rintro ⟨ht, hv, hb⟩
      exact ⟨⟨t, ht, if_neg hb⟩, hv⟩
  have hstu : ∀ r : Student, r ∈ fetchStudents db' ↔ (r ∈ fetchStudents db ∧ r.ID ≠ bob) := by
    intro r
    rw [mem_fetchStudents, mem_fetchStudents]
    constructor
    · rintro ⟨t, ht, hv, rfl⟩
      obtain ⟨h1, h2, h3⟩ := (hvis t).1 ⟨ht, hv⟩
      exact ⟨⟨t, h1, h2, by rw [lastAny_congr db db' hA]⟩, h3⟩
    · rintro ⟨⟨t, ht, hv, rfl⟩, hb⟩
      obtain ⟨h1, h2⟩ := (hvis t).2 ⟨ht, hv, hb⟩
      exact ⟨t, h1, h2, by rw [lastAny_congr db db' hA]⟩
  have hcomp : ∀ m (c : Companion),
      c ∈ fetchCompanions db' m ↔ (c ∈ fetchCompanions db m ∧ c.ID ≠ bob) := by
    intro m c
    rw [mem_fetchCompanions, mem_fetchCompanions]
    constructor
    · rintro ⟨t, ht, hm, hv, rfl⟩
      obtain ⟨h1, h2, h3⟩ := (hvis t).1 ⟨ht, hv⟩
      exact ⟨⟨t, h1, hm, h2,
        by rw [lastAny_congr db db' hA, lastTogether_congr db db' hA]⟩, h3⟩
    · rintro ⟨⟨t, ht, hm, hv, rfl⟩, hb⟩
      obtain ⟨h1, h2⟩ := (hvis t).2 ⟨ht, hv, hb⟩
      exact ⟨t, h1, hm, h2, by rw [lastAny_congr db db' hA, lastTogether_congr db db' hA]⟩
  refine ⟨fun r hr => ((hstu r).1 hr).2, fun m c hc => ((hcomp m c).1 hc).2, ?_, ?_, ?_, ?_⟩
  · intro r hr
    rw [hstu]
    exact ⟨fun h => h.1, fun h => ⟨h, hr⟩⟩
  · intro m c hc
    rw [hcomp]
    exact ⟨fun h => h.1, fun h => ⟨h, hc⟩⟩
  · intro r hr
    obtain ⟨t, _, _, rfl⟩ := (mem_fetchStudents db r).1 ((hstu r).1 hr).1
    exact lastAny_IsMaxDate db t.id
  · intro m c hc
    obtain ⟨t, _, _, _, rfl⟩ := (mem_fetchCompanions db m c).1 ((hcomp m c).1 hc).1
    exact ⟨lastTogether_IsMaxDate db m t.id, lastAny_IsMaxDate db t.id⟩

/-! ## Recording an assignment -/

/-- A successful `createAssignment` keeps the students and appends exactly one
row, with the three values given. -/
theorem createAssignment_ok (db db' : DB) (m s : Int) (d : Int)
    (hok : createAssignment db m s d = .ok db') :
    db'.students = db.students ∧ db'.foreign_keys = db.foreign_keys ∧
      db'.assignments =
        db.assignments ++ [⟨nextId (db.assignments.map fun a => a.id), m, s, d⟩] := by
  unfold createAssignment at hok
  split at hok
  · exact Except.noConfusion hok
  · injection hok with hok
    subst hok
    exact ⟨rfl, rfl, rfl⟩

/-- C5 (counterexample). Recording (Ana, Bob, 20240101) on a store where the
two were already paired on 20250101 succeeds, and the companions of Ana then
show Bob with last-paired date 20250101: no row of Bob carries 20240101. -/
theorem roundtrip_counterexample :
    createAssignment pairedLaterStore 1 2 20240101 =
        .ok ⟨[⟨1, "Ana", false⟩, ⟨2, "Bob", false⟩],
          [⟨1, 1, 2, 20250101⟩, ⟨2, 1, 2, 20240101⟩], true⟩ ∧
      fetchCompanions ⟨[⟨1, "Ana", false⟩, ⟨2, "Bob", false⟩],
          [⟨1, 1, 2, 20250101⟩, ⟨2, 1, 2, 20240101⟩], true⟩ 1 =
        [⟨2, "Bob", some 20250101, some 20250101⟩] ∧
      ¬ ∃ c ∈ fetchCompanions ⟨[⟨1, "Ana", false⟩, ⟨2, "Bob", false⟩],
          [⟨1, 1, 2, 20250101⟩, ⟨2, 1, 2, 20240101⟩], true⟩ 1,
        c.ID = 2 ∧ c.LastTogetherDate = some 20240101 := by
  decide

/-- C5 (amended). After a successful `createAssignment db A b d`, for a
visible person `b` other than `A`, `fetchCompanions` of `A` lists `b`, and every
row of `b` carries as last-paired date the later of `d` and the last-paired date
before the write; it is `d` itself when no assignment pairing the two before
the write is dated after `d`. -/
theorem createAssignment_roundtrip (db db' : DB) (A : Int) (b : StudentRow) (d : Int)
    (hb : b ∈ db.students) (hv : b.hidden = false) (hne : b.id ≠ A)
    (hok : createAssignment db A b.id d = .ok db') :
    (∃ c ∈ fetchCompanions db' A, c.ID = b.id ∧ c.Name = b.name) ∧
      ∀ c ∈ fetchCompanions db' A, c.ID = b.id →
        (∀ prev, IsMaxDate db (pairs A b.id) prev →
          c.LastTogetherDate = some (match prev with
            | none => d
            | some p => max p d)) ∧
        ((∀ a ∈ db.assignments, pairs A b.id a → a.date ≤ d) →
          c.LastTogetherDate = some d) := by
  obtain ⟨hS, _, hA⟩ := createAssignment_ok db db' A b.id d hok
  have hnew : pairs A b.id ⟨nextId (db.assignments.map fun a => a.id), A, b.id, d⟩ :=
    Or.inl ⟨rfl, rfl⟩
  have hmem : ∀ a, a ∈ db'.assignments ↔
      (a ∈ db.assignments ∨ a = ⟨nextId (db.assignments.map fun a => a.id), A, b.id, d⟩) := by
    intro a
    rw [hA]
    simp
  have key : ∀ v, IsMaxDate db' (pairs A b.id) (some v) →
      lastTogether db' A b.id = some v := fun v h =>
    IsMaxDate_unique db' _ _ _ (lastTogether_IsMaxDate db' A b.id) h
  constructor
  · exact ⟨_, (mem_fetchCompanions db' A _).2 ⟨b, hS ▸ hb, hne, hv, rfl⟩, rfl, rfl⟩
  · intro c hc hcid
    obtain ⟨s, _, _, _, rfl⟩ := (mem_fetchCompanions db' A c).1 hc
    simp only at hcid
    simp only [hcid]
    constructor
    · intro prev hprev
      apply key
      cases prev with
      | none =>
        refine ⟨⟨_, (hmem _).2 (Or.inr rfl), hnew, rfl⟩, ?_⟩
        intro a ha hP
        rcases (hmem a).1 ha with h | h
        · exact absurd hP (hprev a h)
        · rw [h]
      | some p =>
        obtain ⟨⟨a0, ha0, hP0, hd0⟩, hmax⟩ := hprev
        constructor
        · rcases le_total p d with hpd | hpd
          · exact ⟨_, (hmem _).2 (Or.inr rfl), hnew, by simp [max_eq_right hpd]⟩
          · exact ⟨a0, (hmem _).2 (Or.inl ha0), hP0, by simp [hd0, max_eq_left hpd]⟩
        · intro a ha hP
          rcases (hmem a).1 ha with h | h
          · exact le_trans (hmax a h hP) (le_max_left _ _)
          · rw [h]
            exact le_max_right _ _
    · intro hle
      apply key
      refine ⟨⟨_, (hmem _).2 (Or.inr rfl), hnew, rfl⟩, ?_⟩
      intro a ha hP
      rcases (hmem a).1 ha with h | h
      · exact hle a h hP
      · rw [h]

/-- C5 (amended), at a concrete input: Ana and Bob were paired on 20250101;
after recording 20240101 Bob is listed for Ana, still at 20250101. -/
theorem createAssignment_roundtrip_witness :
    (∃ c ∈ fetchCompanions ⟨[⟨1, "Ana", false⟩, ⟨2, "Bob", false⟩],
        [⟨1, 1, 2, 20250101⟩, ⟨2, 1, 2, 20240101⟩], true⟩ 1, c.ID = 2 ∧ c.Name = "Bob") ∧
      ∀ c ∈ fetchCompanions ⟨[⟨1, "Ana", false⟩, ⟨2, "Bob", false⟩],
        [⟨1, 1, 2, 20250101⟩, ⟨2, 1, 2, 20240101⟩], true⟩ 1, c.ID = 2 →
        c.LastTogetherDate = some (max 20250101 20240101) :=
  have h := createAssignment_roundtrip pairedLaterStore _ 1 ⟨2, "Bob", false⟩ 20240101
    (by decide) rfl (by decide) (by decide)
  ⟨h.1, fun c hc hid => (h.2 c hc hid).1 (some 20250101)
    (by
      refine ⟨⟨⟨1, 1, 2, 20250101⟩, by decide, Or.inl ⟨rfl, rfl⟩, rfl⟩, ?_⟩
      intro a ha _
      have : a = ⟨1, 1, 2, 20250101⟩ := by simpa [pairedLaterStore] using ha
      rw [this])⟩

/-! ## The date entry step -/

theorem utf8Size_of_le_nine (c : Char) (h : c ≤ '9') : c.utf8Size = 1 := by
  have h1 : c.val.toNat ≤ 57 := h
  have h2 : c.val ≤ 127 := by
    show c.val.toNat ≤ 127
    omega
  unfold Char.utf8Size
  simp [h2]

theorem parseDigits_ascii (cs : List Char) (n m : Nat) (h : parseDigits cs n = some m) :
    ∀ c ∈ cs, c.utf8Size = 1 := by
  induction cs generalizing n with
  | nil => simp
  | cons c cs ih =>
    unfold parseDigits at h
    split at h
    · rename_i hc
      intro x hx
      rcases List.mem_cons.1 hx with rfl | hx
      · exact utf8Size_of_le_nine _ hc.2
      · exact ih _ h x hx
    · exact Option.noConfusion h

theorem utf8ByteSize_go_ascii (cs : List Char) (h : ∀ c ∈ cs, c.utf8Size = 1) :
    String.utf8ByteSize.go cs = cs.length := by
  induction cs with
  | nil => rfl
  | cons c cs ih =>
    simp only [String.utf8ByteSize.go, List.length_cons]
    rw [ih (fun x hx => h x (List.mem_cons_of_mem _ hx)), h c (List.mem_cons_self _ _)]

/-- A text that `Atoi` accepts is made of ASCII characters, so its length in
bytes, which Go's `len` reports, is its number of characters. -/
theorem Atoi_ok_byteSize (s : String) (n : Int) (h : Atoi s = .ok n) :
    s.utf8ByteSize = s.length := by
  have hall : ∀ c ∈ s.data, c.utf8Size = 1 := by
    unfold Atoi at h
    split at h
    · exact Except.noConfusion h
    · rename_i c cs hdata
      rw [hdata]
      simp only at h
      by_cases hsign : c = '-' ∨ c = '+'
      · rw [if_pos hsign] at h
        split at h
        · exact Except.noConfusion h
        · split at h
          · exact Except.noConfusion h
          · rename_i k hk
            intro x hx
            rcases List.mem_cons.1 hx with rfl | hx
            · rcases hsign with rfl | rfl <;> rfl
            · exact parseDigits_ascii _ _ _ hk x hx
      · rw [if_neg hsign] at h
        split at h
        · exact Except.noConfusion h
        · split at h
          · exact Except.noConfusion h
          · rename_i k hk
            exact parseDigits_ascii _ _ _ hk
  show String.utf8ByteSize.go s.data = s.data.length
  exact utf8ByteSize_go_ascii _ hall

theorem forward_db (sh : Shell L T) (m : model L T) (msg : Msg) :
    (forward sh m msg).1.db = m.db := by
  unfold forward
  split <;> rfl

theorem forward_state (sh : Shell L T) (m : model L T) (msg : Msg) :
    (forward sh m msg).1.state = m.state := by
  unfold forward
  split <;> rfl

theorem forward_err (sh : Shell L T) (m : model L T) (msg : Msg) :
    (forward sh m msg).1.err = m.err := by
  unfold forward
  split <;> rfl

theorem forward_items (sh : Shell L T) (m : model L T) (msg : Msg) :
    (forward sh m msg).1.list.items = m.list.items := by
  unfold forward
  split <;> rfl

theorem forward_selected (sh : Shell L T) (m : model L T) (msg : Msg) :
    (forward sh m msg).1.selectedStudent = m.selectedStudent ∧
      (forward sh m msg).1.selectedCompanion = m.selectedCompanion := by
  unfold forward
  split <;> exact ⟨rfl, rfl⟩

/-- What `Update` computes on "enter" in the date entry state, no error shown. -/
theorem Update_enter_date (sh : Shell L T) (now : String) (m : model L T)
    (hs : m.state = .stateAssigningDate) (he : m.err = none) :
    Update sh now m (.KeyMsg "enter") =
      (match Atoi m.textInput.value with
      | .error _ => ({ m with err := some "fecha inválida, debe ser formato YYYYMMDD" }, Cmd.nil)
      | .ok date =>
        if m.textInput.value.utf8ByteSize ≠ 8 then
          ({ m with err := some "fecha inválida, debe ser formato YYYYMMDD" }, Cmd.nil)
        else
          match createAssignment m.db m.selectedStudent.ID m.selectedCompanion.ID date with
          | .error e => ({ m with err := some e }, Cmd.nil)
          | .ok db' =>
            forward sh
              { m with
                db := db'
                state := .stateStudentList
                list := SetItems sh { m.list with Title := "Seleccionar Estudiante" }
                  ((fetchStudents db').map Item.student) } (.KeyMsg "enter")) := by
  unfold Update
  simp only [he, hs, Option.isSome_none]
  simp

/-- C7. In the date entry state with no error shown, on "enter" with text `t`:
if `t` has not exactly 8 characters or `Atoi` rejects it, `Update` returns no
command, the state stays the date entry state, the invalid-date error is set
and the store is unchanged; if `t` has 8 characters, `Atoi` reads it as `n` and
`createAssignment` succeeds with store `db'`, then `db'` is the old store with
exactly the one row (selected student, selected companion, `n`) appended, the
model holds `db'`, is back in the student list state with no error, and its
list holds `fetchStudents db'`; and if the store rejects the write, the state
stays, the store's error is set and the store is unchanged. -/
theorem date_confirm_spec (sh : Shell L T) (now : String) (m : model L T)
    (hs : m.state = .stateAssigningDate) (he : m.err = none) :
    ((m.textInput.value.length ≠ 8 ∨ ∀ n, Atoi m.textInput.value ≠ .ok n) →
        (Update sh now m (.KeyMsg "enter")).2 = .nil ∧
          (Update sh now m (.KeyMsg "enter")).1.state = .stateAssigningDate ∧
          (Update sh now m (.KeyMsg "enter")).1.err =
            some "fecha inválida, debe ser formato YYYYMMDD" ∧
          (Update sh now m (.KeyMsg "enter")).1.db = m.db) ∧
      (∀ n db', m.textInput.value.length = 8 → Atoi m.textInput.value = .ok n →
        createAssignment m.db m.selectedStudent.ID m.selectedCompanion.ID n = .ok db' →
        db'.students = m.db.students ∧
          db'.assignments = m.db.assignments ++
            [⟨nextId (m.db.assignments.map fun a => a.id),
              m.selectedStudent.ID, m.selectedCompanion.ID, n⟩] ∧
          (Update sh now m (.KeyMsg "enter")).1.db = db' ∧
          (Update sh now m (.KeyMsg "enter")).1.state = .stateStudentList ∧
          (Update sh now m (.KeyMsg "enter")).1.err = none ∧
          (Update sh now m (.KeyMsg "enter")).1.list.items =
            (fetchStudents db').map Item.student) ∧
      (∀ n e, m.textInput.value.length = 8 → Atoi m.textInput.value = .ok n →
        createAssignment m.db m.selectedStudent.ID m.selectedCompanion.ID n = .error e →
        (Update sh now m (.KeyMsg "enter")).2 = .nil ∧
          (Update sh now m (.KeyMsg "enter")).1.state = .stateAssigningDate ∧
          (Update sh now m (.KeyMsg "enter")).1.err = some e ∧
          (Update sh now m (.KeyMsg "enter")).1.db = m.db) := by
  have hU := Update_enter_date sh now m hs he
  refine ⟨?_, ?_, ?_⟩
  · intro hbad
    rw [hU]
    cases hA : Atoi m.textInput.value with
    | error e => exact ⟨rfl, hs, rfl, rfl⟩
    | ok date =>
      have hlen : m.textInput.value.utf8ByteSize ≠ 8 := by
        rw [Atoi_ok_byteSize _ _ hA]
        rcases hbad with h | h
        · exact h
        · exact absurd hA (h date)
      simp only
      rw [if_pos hlen]
      exact ⟨rfl, hs, rfl, rfl⟩
  · intro n db' hlen hA hok
    have hb : ¬ m.textInput.value.utf8ByteSize ≠ 8 := by
      rw [Atoi_ok_byteSize _ _ hA]
      exact not_not.2 hlen
    obtain ⟨h1, _, h3⟩ := createAssignment_ok _ _ _ _ _ hok
    rw [hU, hA]
    simp only
    rw [if_neg hb, hok]
    refine ⟨h1, h3, ?_, ?_, ?_, ?_⟩
    · rw [forward_db]
    · rw [forward_state]
    · rw [forward_err]
      exact he
    · rw [forward_items]
      rfl
  · intro n e hlen hA herr
    have hb : ¬ m.textInput.value.utf8ByteSize ≠ 8 := by
      rw [Atoi_ok_byteSize _ _ hA]
      exact not_not.2 hlen
    rw [hU, hA]
    simp only
    rw [if_neg hb, herr]
    exact ⟨rfl, hs, rfl, rfl⟩

/-- C8 (amended). The keys "ctrl+c" and "q" never write to the store.  With no
error shown they make `Update` return the model unchanged with the quit command
in the student list state when the list is not filtering, in the companion list
state and in the date entry state; in the add-student state they return no
command and lead back to the student list state. -/
theorem quit_keys_spec (sh : Shell L T) (now : String) (m : model L T) (k : String)
    (hk : k = "ctrl+c" ∨ k = "q") :
    (Update sh now m (.KeyMsg k)).1.db = m.db ∧
      (m.err = none →
        (((m.state = .stateStudentList ∧ sh.listFiltering m.list.widget m.list.items = false) ∨
            m.state = .stateCompanionList ∨ m.state = .stateAssigningDate) →
          Update sh now m (.KeyMsg k) = (m, .Quit)) ∧
        (m.state = .stateAddingStudent →
          (Update sh now m (.KeyMsg k)).2 = .nil ∧
            (Update sh now m (.KeyMsg k)).1.state = .stateStudentList ∧
            (Update sh now m (.KeyMsg k)).1.err = none)) := by
  constructor
  · unfold Update
    simp only
    split
    · rfl
    · split
      · split
        · exact forward_db sh m _
        · rfl
      · rfl
      · rfl
      · rw [if_pos (by rcases hk with h | h <;> simp [h])]
  · intro he
    constructor
    · rintro (⟨hs, hf⟩ | hs | hs)
      · unfold Update
        simp only [he, hs, hf, Option.isSome_none]
        simp [hk]
      · unfold Update
        simp only [he, hs, Option.isSome_none]
        simp [hk]
      · unfold Update
        simp only [he, hs, Option.isSome_none]
        simp [hk]
    · intro hs
      have hk3 : k = "ctrl+c" ∨ k = "q" ∨ k = "esc" := by
        rcases hk with h | h <;> simp [h]
      unfold Update
      simp only [he, hs, Option.isSome_none]
      simp [hk3]

/-! ## The workflow never pairs a person with itself -/

theorem SelectedItem_mem (sh : Shell L T) (l : ListModel L) (it : Item)
    (h : SelectedItem sh l = some it) : it ∈ l.items := by
  unfold SelectedItem at h
  split at h
  · exact Option.noConfusion h
  · exact List.get?_mem h

theorem DistinctPairs_forward (sh : Shell L T) (m : model L T) (msg : Msg)
    (h : DistinctPairs m) : DistinctPairs (forward sh m msg).1 := by
  unfold DistinctPairs
  rw [forward_db, forward_state, forward_items, (forward_selected sh m msg).1,
    (forward_selected sh m msg).2]
  exact h

theorem toggleStudentHidden_assignments (db db' : DB) (sid : Int) (b : Bool)
    (h : toggleStudentHidden db sid b = .ok db') : db'.assignments = db.assignments := by
  unfold toggleStudentHidden at h
  injection h with h
  subst h
  rfl

theorem createStudent_assignments (db db' : DB) (name : String)
    (h : createStudent db name = .ok db') : db'.assignments = db.assignments := by
  unfold createStudent at h
  split at h
  · exact Except.noConfusion h
  · injection h with h
    subst h
    rfl

theorem DistinctPairs_Update (sh : Shell L T) (now : String) (m : model L T) (msg : Msg)
    (h : DistinctPairs m) : DistinctPairs (Update sh now m msg).1 := by
  obtain ⟨h1, h2, h3⟩ := h
  cases msg with
  | WindowSizeMsg w hgt => exact DistinctPairs_forward sh _ _ ⟨h1, h2, h3⟩
  | other tag => exact DistinctPairs_forward sh _ _ ⟨h1, h2, h3⟩
  | KeyMsg keypress =>
    unfold Update
    simp only
    split
    · exact ⟨h1, h2, h3⟩
    · split
      · -- student list
        rename_i hst
        have n2 : m.state ≠ .stateCompanionList := by rw [hst]; exact appState.noConfusion
        have n3 : m.state ≠ .stateAssigningDate := by rw [hst]; exact appState.noConfusion
        split
        · exact DistinctPairs_forward sh _ _ ⟨h1, h2, h3⟩
        · split
          · exact ⟨h1, h2, h3⟩
          · split
            · exact ⟨h1, fun h => appState.noConfusion h, fun h => appState.noConfusion h⟩
            · split
              · split
                · split
                  · rename_i selected hsel
                    apply DistinctPairs_forward
                    refine ⟨h1, ?_, fun h => appState.noConfusion h⟩
                    intro _ c hc
                    have hc' : c ∈ fetchCompanions m.db selected.ID := by
                      have := List.mem_map.1 hc
                      obtain ⟨c', hc', hcc⟩ := this
                      injection hcc with hcc
                      exact hcc ▸ hc'
                    obtain ⟨s, _, hne, _, rfl⟩ := (mem_fetchCompanions m.db selected.ID c).1 hc'
                    exact hne
                  · exact DistinctPairs_forward sh _ _ ⟨h1, h2, h3⟩
                · exact DistinctPairs_forward sh _ _ ⟨h1, h2, h3⟩
              · split
                · split
                  · split
                    · split
                      · exact ⟨h1, h2, h3⟩
                      · rename_i db' hdb
                        apply DistinctPairs_forward
                        refine ⟨?_, fun h => absurd h n2, fun h => absurd h n3⟩
                        rw [toggleStudentHidden_assignments _ _ _ _ hdb]
                        exact h1
                    · exact DistinctPairs_forward sh _ _ ⟨h1, h2, h3⟩
                  · exact DistinctPairs_forward sh _ _ ⟨h1, h2, h3⟩
                · exact DistinctPairs_forward sh _ _ ⟨h1, h2, h3⟩
      · -- companion list
        rename_i hst
        split
        · exact ⟨h1, h2, h3⟩
        · split
          · split
            · rename_i selected hsel
              refine ⟨h1, fun h => appState.noConfusion h, fun _ => ?_⟩
              exact h2 hst selected (SelectedItem_mem sh _ _ hsel)
            · exact DistinctPairs_forward sh _ _ ⟨h1, h2, h3⟩
          · exact DistinctPairs_forward sh _ _ ⟨h1, h2, h3⟩
      · -- date entry
        rename_i hst
        split
        · exact ⟨h1, h2, h3⟩
        · split
          · split
            · exact ⟨h1, h2, h3⟩
            · split
              · exact ⟨h1, h2, h3⟩
              · split
                · exact ⟨h1, h2, h3⟩
                · rename_i db' hdb
                  apply DistinctPairs_forward
                  refine ⟨?_, fun h => appState.noConfusion h, fun h => appState.noConfusion h⟩
                  obtain ⟨_, _, hA⟩ := createAssignment_ok _ _ _ _ _ hdb
                  intro a ha
                  simp only at ha
                  rw [hA] at ha
                  rcases List.mem_append.1 ha with ha | ha
                  · exact h1 a ha
                  · rw [List.mem_singleton.1 ha]
                    exact fun heq => h3 hst heq.symm
          · exact DistinctPairs_forward sh _ _ ⟨h1, h2, h3⟩
      · -- adding a student
        rename_i hst
        have n2 : m.state ≠ .stateCompanionList := by rw [hst]; exact appState.noConfusion
        have n3 : m.state ≠ .stateAssigningDate := by rw [hst]; exact appState.noConfusion
        split
        · exact ⟨h1, fun h => appState.noConfusion h, fun h => appState.noConfusion h⟩
        · split
          · split
            · exact ⟨h1, h2, h3⟩
            · split
              · exact ⟨h1, h2, h3⟩
              · rename_i db' hdb
                apply DistinctPairs_forward
                refine ⟨?_, fun h => appState.noConfusion h, fun h => appState.noConfusion h⟩
                simp only
                rw [createStudent_assignments _ _ _ hdb]
                exact h1
          · exact DistinctPairs_forward sh _ _ ⟨h1, h2, h3⟩

theorem DistinctPairs_runUpdates (sh : Shell L T) (m : model L T)
    (events : List (String × Msg)) (h : DistinctPairs m) :
    DistinctPairs (runUpdates sh m events) := by
  induction events generalizing m with
  | nil => exact h
  | cons e rest ih => exact ih _ (DistinctPairs_Update sh e.1 m e.2 h)

/-- C9. From `initialModel` on a store in which every assignment has
`main_student ≠ assistant_student`, whatever the widgets do and whatever
messages `Update` processes, every assignment of the store still has
`main_student ≠ assistant_student`, and whenever the model is in the date entry
state, where alone `createAssignment` is called, the selected companion's id
differs from the selected student's. -/
theorem distinct_pair_invariant (sh : Shell L T) (db : DB)
    (h0 : ∀ a ∈ db.assignments, a.main_student ≠ a.assistant_student)
    (events : List (String × Msg)) :
    (∀ a ∈ (runUpdates sh (initialModel sh db) events).db.assignments,
        a.main_student ≠ a.assistant_student) ∧
      ((runUpdates sh (initialModel sh db) events).state = .stateAssigningDate →
        (runUpdates sh (initialModel sh db) events).selectedCompanion.ID ≠
          (runUpdates sh (initialModel sh db) events).selectedStudent.ID) := by
  have hinit : DistinctPairs (initialModel sh db) :=
    ⟨h0, fun h => appState.noConfusion h, fun h => appState.noConfusion h⟩
  have := DistinctPairs_runUpdates sh _ events hinit
  exact ⟨this.1, this.2.2⟩

/-! ## The Ana and Bob scenario -/

/-- With unique names, `fetchStudents` is the one strictly ordered list with
its rows. -/
theorem fetchStudents_eq_of (db : DB) (hnames : (db.students.map fun s => s.name).Nodup)
    (l : List Student) (hl : l.Pairwise studentBefore)
    (hmem : ∀ r, r ∈ fetchStudents db ↔ r ∈ l) : fetchStudents db = l := by
  haveI : IsAntisymm Student studentBefore :=
    ⟨fun _ _ h1 h2 => absurd h2 (studentBefore_asymm h1)⟩
  haveI : IsIrrefl Student studentBefore := ⟨studentBefore_irrefl⟩
  have hs : (fetchStudents db).Sorted studentBefore := fetchStudents_strict db hnames
  have hl' : l.Sorted studentBefore := hl
  exact List.eq_of_perm_of_sorted ((List.perm_ext_iff_of_nodup hs.nodup hl'.nodup).2 hmem) hs hl'

/-- The two rankings of the scenario, on the stores before and after the row
(Ana, Bob, 20240315) is appended. -/
theorem scenario_store (db db' : DB) (ana bob : StudentRow) (i : Int)
    (hnames : (db.students.map fun s => s.name).Nodup)
    (hna : ana.name = "Ana") (hnb : bob.name = "Bob")
    (hvis : ∀ s, (s ∈ db.students ∧ s.hidden = false) ↔ (s = ana ∨ s = bob))
    (hA : ∀ a ∈ db.assignments, ¬ involves ana.id a)
    (hB : IsMaxDate db (involves bob.id) (some 20230101))
    (hS : db'.students = db.students)
    (hAs : db'.assignments = db.assignments ++ [⟨i, ana.id, bob.id, 20240315⟩]) :
    fetchStudents db =
        [⟨ana.id, "Ana", none, false⟩, ⟨bob.id, "Bob", some 20230101, false⟩] ∧
      fetchStudents db' =
        [⟨ana.id, "Ana", some 20240315, false⟩, ⟨bob.id, "Bob", some 20240315, false⟩] := by
  have hnames' : (db'.students.map fun s => s.name).Nodup := by rw [hS]; exact hnames
  have hvis' : ∀ s, (s ∈ db'.students ∧ s.hidden = false) ↔ (s = ana ∨ s = bob) := by
    intro s
    rw [hS]
    exact hvis s
  have a0 : lastAny db ana.id = none :=
    IsMaxDate_unique db _ _ _ (lastAny_IsMaxDate db ana.id) hA
  have b0 : lastAny db bob.id = some 20230101 :=
    IsMaxDate_unique db _ _ _ (lastAny_IsMaxDate db bob.id) hB
  have hmem' : ∀ a, a ∈ db'.assignments ↔
      (a ∈ db.assignments ∨ a = ⟨i, ana.id, bob.id, 20240315⟩) := by
    intro a
    rw [hAs]
    simp
  have a1 : lastAny db' ana.id = some 20240315 := by
    refine IsMaxDate_unique db' _ _ _ (lastAny_IsMaxDate db' ana.id) ?_
    refine ⟨⟨_, (hmem' _).2 (Or.inr rfl), Or.inl rfl, rfl⟩, ?_⟩
    intro a ha hinv
    rcases (hmem' a).1 ha with h | h
    · exact absurd hinv (hA a h)
    · rw [h]
  have b1 : lastAny db' bob.id = some 20240315 := by
    refine IsMaxDate_unique db' _ _ _ (lastAny_IsMaxDate db' bob.id) ?_
    refine ⟨⟨_, (hmem' _).2 (Or.inr rfl), Or.inr rfl, rfl⟩, ?_⟩
    intro a ha hinv
    rcases (hmem' a).1 ha with h | h
    · exact le_trans (hB.2 a h hinv) (by decide)
    · rw [h]
  have hlt : ("Ana" : String) < "Bob" := String.lt_iff_toList_lt.2 (by decide)
  constructor
  · refine fetchStudents_eq_of db hnames _ ?_ ?_
    · simp only [List.pairwise_cons, List.mem_singleton, List.not_mem_nil, forall_eq,
        List.Pairwise.nil, and_true, IsEmpty.forall_iff, implies_true]
      exact Or.inl trivial
    · intro r
      rw [mem_fetchStudents]
      simp only [List.mem_cons, List.mem_singleton, List.not_mem_nil, or_false]
      constructor
      · rintro ⟨s, hs, hv, rfl⟩
        rcases (hvis s).1 ⟨hs, hv⟩ with rfl | rfl
        · left
          rw [hna, a0]
        · right
          rw [hnb, b0]
      · rintro (rfl | rfl)
        · exact ⟨ana, ((hvis ana).2 (Or.inl rfl)).1, ((hvis ana).2 (Or.inl rfl)).2,
            by rw [hna, a0]⟩
        · exact ⟨bob, ((hvis bob).2 (Or.inr rfl)).1, ((hvis bob).2 (Or.inr rfl)).2,
            by rw [hnb, b0]⟩
  · refine fetchStudents_eq_of db' hnames' _ ?_ ?_
    · simp only [List.pairwise_cons, List.mem_singleton, List.not_mem_nil, forall_eq,
        List.Pairwise.nil, and_true, IsEmpty.forall_iff, implies_true]
      exact Or.inr ⟨rfl, hlt⟩
    · intro r
      rw [mem_fetchStudents]
      simp only [List.mem_cons, List.mem_singleton, List.not_mem_nil, or_false]
      constructor
      · rintro ⟨s, hs, hv, rfl⟩
        rcases (hvis' s).1 ⟨hs, hv⟩ with rfl | rfl
        · left
          rw [hna, a1]
        · right
          rw [hnb, b1]
      · rintro (rfl | rfl)
        · exact ⟨ana, ((hvis' ana).2 (Or.inl rfl)).1, ((hvis' ana).2 (Or.inl rfl)).2,
            by rw [hna, a1]⟩
        · exact ⟨bob, ((hvis' bob).2 (Or.inr rfl)).1, ((hvis' bob).2 (Or.inr rfl)).2,
            by rw [hnb, b1]⟩

/-- C4 (counterexample). On `scenarioStore` the ranking is [Ana, Bob]; the
workflow selects Ana, then Bob, and commits 20240315; the store then holds the
row (Ana, Bob, 20240315), and the ranking is [Ana 20240315, Bob 20240315], not
[Bob 20230101, Ana 20240315]: the assignment is also Bob's latest. -/
theorem scenario_counterexample :
    fetchStudents scenarioStore =
        [⟨1, "Ana", none, false⟩, ⟨2, "Bob", some 20230101, false⟩] ∧
      (runUpdates plainShell (initialModel plainShell scenarioStore)
        [("20240315", .KeyMsg "enter"), ("20240315", .KeyMsg "enter"),
          ("20240315", .KeyMsg "enter")]).db.assignments =
        [⟨1, 2, 3, 20230101⟩, ⟨2, 1, 2, 20240315⟩] ∧
      fetchStudents (runUpdates plainShell (initialModel plainShell scenarioStore)
        [("20240315", .KeyMsg "enter"), ("20240315", .KeyMsg "enter"),
          ("20240315", .KeyMsg "enter")]).db =
        [⟨1, "Ana", some 20240315, false⟩, ⟨2, "Bob", some 20240315, false⟩] ∧
      fetchStudents (runUpdates plainShell (initialModel plainShell scenarioStore)
        [("20240315", .KeyMsg "enter"), ("20240315", .KeyMsg "enter"),
          ("20240315", .KeyMsg "enter")]).db ≠
        [⟨2, "Bob", some 20230101, false⟩, ⟨1, "Ana", some 20240315, false⟩] := by
  decide

/-- C4 (amended). On a store with unique names whose visible persons are Ana,
whom no assignment references, and Bob, whose last activity is 20230101,
`fetchStudents` returns [Ana, Bob]; when the workflow, with Ana selected as
student and Bob as companion, confirms the date text "20240315", it returns to
the student list state, the store gains the one row (Ana, Bob, 20240315), and
`fetchStudents` then returns, and the list shows, [Ana 20240315, Bob 20240315]:
both took part on that date, and the tie is broken by name. -/
theorem scenario_spec (sh : Shell L T) (now : String) (m : model L T) (ana bob : StudentRow)
    (hnames : (m.db.students.map fun s => s.name).Nodup)
    (hna : ana.name = "Ana") (hnb : bob.name = "Bob")
    (hvis : ∀ s, (s ∈ m.db.students ∧ s.hidden = false) ↔ (s = ana ∨ s = bob))
    (hA : ∀ a ∈ m.db.assignments, ¬ involves ana.id a)
    (hB : IsMaxDate m.db (involves bob.id) (some 20230101))
    (hs : m.state = .stateAssigningDate) (he : m.err = none)
    (h1 : m.selectedStudent.ID = ana.id) (h2 : m.selectedCompanion.ID = bob.id)
    (ht : m.textInput.value = "20240315") :
    fetchStudents m.db =
        [⟨ana.id, "Ana", none, false⟩, ⟨bob.id, "Bob", some 20230101, false⟩] ∧
      (Update sh now m (.KeyMsg "enter")).1.state = .stateStudentList ∧
      (Update sh now m (.KeyMsg "enter")).1.db.assignments =
        m.db.assignments ++
          [⟨nextId (m.db.assignments.map fun a => a.id), ana.id, bob.id, 20240315⟩] ∧
      fetchStudents (Update sh now m (.KeyMsg "enter")).1.db =
        [⟨ana.id, "Ana", some 20240315, false⟩, ⟨bob.id, "Bob", some 20240315, false⟩] ∧
      (Update sh now m (.KeyMsg "enter")).1.list.items =
        [.student ⟨ana.id, "Ana", some 20240315, false⟩,
          .student ⟨bob.id, "Bob", some 20240315, false⟩] := by
  have hAtoi : Atoi "20240315" = .ok 20240315 := by decide
  have hlen : ¬ ("20240315" : String).utf8ByteSize ≠ 8 := by decide
  have hok : createAssignment m.db ana.id bob.id 20240315 =
      .ok { m.db with assignments := m.db.assignments ++
        [⟨nextId (m.db.assignments.map fun a => a.id), ana.id, bob.id, 20240315⟩] } := by
    unfold createAssignment
    rw [if_neg]
    rintro ⟨_, hno⟩
    apply hno
    exact ⟨List.mem_map.2 ⟨ana, ((hvis ana).2 (Or.inl rfl)).1, rfl⟩,
      List.mem_map.2 ⟨bob, ((hvis bob).2 (Or.inr rfl)).1, rfl⟩⟩
  have hU := Update_enter_date sh now m hs he
  rw [ht, hAtoi] at hU
  simp only at hU
  rw [if_neg hlen, h1, h2, hok] at hU
  simp only at hU
  obtain ⟨r0, r1⟩ := scenario_store m.db
    { m.db with assignments := m.db.assignments ++
      [⟨nextId (m.db.assignments.map fun a => a.id), ana.id, bob.id, 20240315⟩] }
    ana bob _ hnames hna hnb hvis hA hB rfl rfl
  refine ⟨r0, ?_, ?_, ?_, ?_⟩
  · rw [hU, forward_state]
  · rw [hU, forward_db]
  · rw [hU, forward_db]
    exact r1
  · rw [hU, forward_items]
    show List.map Item.student (fetchStudents _) = _
    rw [r1]
    rfl

/-- C4 (amended), on `scenarioStore` with the small shell: after "enter" on Ana
and "enter" on Bob the model is in the date entry state with text "20240315",
and confirming gives the ranking [Ana 20240315, Bob 20240315]. -/
theorem scenario_spec_witness :
    fetchStudents scenarioEntry.db =
        [⟨1, "Ana", none, false⟩, ⟨2, "Bob", some 20230101, false⟩] ∧
      (Update plainShell "20240315" scenarioEntry (.KeyMsg "enter")).1.state =
        .stateStudentList ∧
      (Update plainShell "20240315" scenarioEntry (.KeyMsg "enter")).1.db.assignments =
        scenarioEntry.db.assignments ++
          [⟨nextId (scenarioEntry.db.assignments.map fun a => a.id), 1, 2, 20240315⟩] ∧
      fetchStudents (Update plainShell "20240315" scenarioEntry (.KeyMsg "enter")).1.db =
        [⟨1, "Ana", some 20240315, false⟩, ⟨2, "Bob", some 20240315, false⟩] ∧
      (Update plainShell "20240315" scenarioEntry (.KeyMsg "enter")).1.list.items =
        [.student ⟨1, "Ana", some 20240315, false⟩,
          .student ⟨2, "Bob", some 20240315, false⟩] :=
  scenario_spec plainShell "20240315" scenarioEntry ⟨1, "Ana", false⟩ ⟨2, "Bob", false⟩
    (by decide) rfl rfl
    (by
      intro s
      have e : scenarioEntry.db.students =
          [⟨1, "Ana", false⟩, ⟨2, "Bob", false⟩, ⟨3, "Cid", true⟩] := by decide
      rw [e]
      constructor
      · rintro ⟨hs, hv⟩
        simp only [List.mem_cons, List.mem_singleton, List.not_mem_nil, or_false] at hs
        rcases hs with rfl | rfl | rfl
        · exact Or.inl rfl
        · exact Or.inr rfl
        · exact Bool.noConfusion hv
      · rintro (rfl | rfl) <;> simp)
    (by
      have e : scenarioEntry.db.assignments = [⟨1, 2, 3, 20230101⟩] := by decide
      rw [e]
      intro a ha
      rw [List.mem_singleton.1 ha]
      unfold involves
      decide)
    (by
      have e : scenarioEntry.db.assignments = [⟨1, 2, 3, 20230101⟩] := by decide
      unfold IsMaxDate
      rw [e]
      refine ⟨⟨_, List.mem_singleton.2 rfl, Or.inl rfl, rfl⟩, ?_⟩
      intro a ha _
      rw [List.mem_singleton.1 ha])
    (by decide) (by decide) (by decide) (by decide) (by decide)

/-! ## Concrete runs -/

/-- C1 at `scenarioStore`: the names are unique, and the ranking has the two
visible persons, Ana (never) before Bob (20230101). -/
theorem fetchStudents_spec_witness :
    ((fetchStudents scenarioStore).map fun r => (r.ID, r.Name)).Perm
        ((scenarioStore.students.filter fun s => s.hidden == false).map
          fun s => (s.id, s.name)) ∧
      (fetchStudents scenarioStore).Pairwise studentBefore :=
  ⟨(fetchStudents_spec scenarioStore (by decide)).1,
    (fetchStudents_spec scenarioStore (by decide)).2.2.2.1⟩

/-- C3 at `rotationStore`, main student Ana: Eva (paired 20230101) is listed
before Bob (paired 20240101). -/
theorem fetchCompanions_older_pair_first_witness :
    (∃ c ∈ fetchCompanions rotationStore 1,
        c.ID = 3 ∧ c.Name = "Eva" ∧ c.LastTogetherDate = some 20230101) ∧
      (∃ c ∈ fetchCompanions rotationStore 1,
        c.ID = 2 ∧ c.Name = "Bob" ∧ c.LastTogetherDate = some 20240101) ∧
      ∀ (i j : Nat) (c1 c2 : Companion), (fetchCompanions rotationStore 1)[i]? = some c1 →
        (fetchCompanions rotationStore 1)[j]? = some c2 → c1.ID = 3 → c2.ID = 2 → i < j :=
  fetchCompanions_older_pair_first rotationStore 1 ⟨3, "Eva", false⟩ ⟨2, "Bob", false⟩
    20230101 20240101 (by decide) (by decide) rfl rfl (by decide) (by decide)
    (by
      refine ⟨⟨⟨2, 3, 1, 20230101⟩, by decide, Or.inr ⟨rfl, rfl⟩, rfl⟩, ?_⟩
      intro a ha hp
      simp only [rotationStore, List.mem_cons, List.mem_singleton, List.not_mem_nil,
        or_false] at ha
      rcases ha with rfl | rfl
      · exact absurd hp (by unfold pairs; decide)
      · exact le_refl _)
    (by
      refine ⟨⟨⟨1, 1, 2, 20240101⟩, by decide, Or.inl ⟨rfl, rfl⟩, rfl⟩, ?_⟩
      intro a ha hp
      simp only [rotationStore, List.mem_cons, List.mem_singleton, List.not_mem_nil,
        or_false] at ha
      rcases ha with rfl | rfl
      · exact le_refl _
      · exact absurd hp (by unfold pairs; decide))
    (by decide)

/-- C7 at two concrete models: with the 7-character text "2024031" the
confirmation is refused and nothing is written; with "20240315" the row
(Ana, Bob, 20240315) is appended and the student list is reloaded. -/
theorem date_confirm_spec_witness :
    ((Update plainShell "20240315" shortDateEntry (.KeyMsg "enter")).2 = .nil ∧
        (Update plainShell "20240315" shortDateEntry (.KeyMsg "enter")).1.state =
          .stateAssigningDate ∧
        (Update plainShell "20240315" shortDateEntry (.KeyMsg "enter")).1.err =
          some "fecha inválida, debe ser formato YYYYMMDD" ∧
        (Update plainShell "20240315" shortDateEntry (.KeyMsg "enter")).1.db =
          shortDateEntry.db) ∧
      ((Update plainShell "20240315" scenarioEntry (.KeyMsg "enter")).1.db.assignments =
          [⟨1, 2, 3, 20230101⟩, ⟨2, 1, 2, 20240315⟩] ∧
        (Update plainShell "20240315" scenarioEntry (.KeyMsg "enter")).1.state =
          .stateStudentList) :=
  ⟨(date_confirm_spec plainShell "20240315" shortDateEntry (by decide) (by decide)).1
      (Or.inl (by decide)),
    have h := (date_confirm_spec plainShell "20240315" scenarioEntry
      (by decide) (by decide)).2.1 20240315
      ⟨[⟨1, "Ana", false⟩, ⟨2, "Bob", false⟩, ⟨3, "Cid", true⟩],
        [⟨1, 2, 3, 20230101⟩, ⟨2, 1, 2, 20240315⟩], true⟩
      (by decide) (by decide) (by decide)
    ⟨h.2.2.1 ▸ rfl, h.2.2.2.1⟩⟩

/-- C8 (counterexample). After "a" the workflow is in the add-student state
with no error shown; there "q" returns no command, not the quit command, and
leads to the student list state. -/
theorem quit_in_adding_counterexample :
    addingEntry.state = .stateAddingStudent ∧ addingEntry.err = none ∧
      (Update plainShell "20240315" addingEntry (.KeyMsg "q")).2 = .nil ∧
      (Update plainShell "20240315" addingEntry (.KeyMsg "q")).2 ≠ .Quit ∧
      (Update plainShell "20240315" addingEntry (.KeyMsg "q")).1.state = .stateStudentList := by
  decide

/-- C8 (amended) at concrete models: in the date entry state "q" returns the
model unchanged with the quit command; in the add-student state "ctrl+c"
returns no command and leads to the student list state; neither writes. -/
theorem quit_keys_spec_witness :
    Update plainShell "20240315" scenarioEntry (.KeyMsg "q") = (scenarioEntry, .Quit) ∧
      (Update plainShell "20240315" addingEntry (.KeyMsg "ctrl+c")).1.db = addingEntry.db ∧
      ((Update plainShell "20240315" addingEntry (.KeyMsg "ctrl+c")).2 = .nil ∧
        (Update plainShell "20240315" addingEntry (.KeyMsg "ctrl+c")).1.state =
          .stateStudentList ∧
        (Update plainShell "20240315" addingEntry (.KeyMsg "ctrl+c")).1.err = none) :=
  ⟨((quit_keys_spec plainShell "20240315" scenarioEntry "q" (Or.inr rfl)).2 (by decide)).1
      (Or.inr (Or.inr (by decide))),
    (quit_keys_spec plainShell "20240315" addingEntry "ctrl+c" (Or.inl rfl)).1,
    ((quit_keys_spec plainShell "20240315" addingEntry "ctrl+c" (Or.inl rfl)).2
      (by decide)).2 (by decide)⟩

/-- C9 at `scenarioStore` with the small shell, over the run that selects Ana,
then Bob, and commits: every assignment of the final store pairs two different
persons. -/
theorem distinct_pair_invariant_witness :
    (∀ a ∈ (runUpdates plainShell (initialModel plainShell scenarioStore)
        [("20240315", .KeyMsg "enter"), ("20240315", .KeyMsg "enter"),
          ("20240315", .KeyMsg "enter")]).db.assignments,
        a.main_student ≠ a.assistant_student) ∧
      ((runUpdates plainShell (initialModel plainShell scenarioStore)
        [("20240315", .KeyMsg "enter"), ("20240315", .KeyMsg "enter"),
          ("20240315", .KeyMsg "enter")]).state = .stateAssigningDate →
        (runUpdates plainShell (initialModel plainShell scenarioStore)
          [("20240315", .KeyMsg "enter"), ("20240315", .KeyMsg "enter"),
            ("20240315", .KeyMsg "enter")]).selectedCompanion.ID ≠
          (runUpdates plainShell (initialModel plainShell scenarioStore)
            [("20240315", .KeyMsg "enter"), ("20240315", .KeyMsg "enter"),
              ("20240315", .KeyMsg "enter")]).selectedStudent.ID) :=
  distinct_pair_invariant plainShell scenarioStore (by decide)
    [("20240315", .KeyMsg "enter"), ("20240315", .KeyMsg "enter"),
      ("20240315", .KeyMsg "enter")]

/-- C10 (the code at the failing input). In the date entry state reached by
selecting Ana and Bob, the user deletes the proposed date and types
"00000001": the text has 8 characters and `Atoi` reads it as 1, so "enter"
records the assignment (Ana, Bob, 1); the stored date is below 10000000 and
`formatDate` renders it as "Fecha inválida".  Likewise `Atoi` reads the
8-character text "-1234567" as a negative number, which `formatDate` renders as
"-123-45-67". -/
theorem leading_zero_date_recorded :
    (runUpdates plainShell scenarioEntry
        (List.replicate 8 ("20240315", Msg.KeyMsg "backspace") ++
          List.replicate 7 ("20240315", Msg.KeyMsg "0") ++
          [("20240315", .KeyMsg "1")])).textInput.value = "00000001" ∧
      ("00000001" : String).length = 8 ∧ Atoi "00000001" = .ok 1 ∧
      (runUpdates plainShell scenarioEntry
        (List.replicate 8 ("20240315", Msg.KeyMsg "backspace") ++
          List.replicate 7 ("20240315", Msg.KeyMsg "0") ++
          [("20240315", .KeyMsg "1"), ("20240315", .KeyMsg "enter")])).db.assignments =
        [⟨1, 2, 3, 20230101⟩, ⟨2, 1, 2, 1⟩] ∧
      (runUpdates plainShell scenarioEntry
        (List.replicate 8 ("20240315", Msg.KeyMsg "backspace") ++
          List.replicate 7 ("20240315", Msg.KeyMsg "0") ++
          [("20240315", .KeyMsg "1"), ("20240315", .KeyMsg "enter")])).state =
        .stateStudentList ∧
      ¬ (10000000 ≤ (1 : Int)) ∧ formatDate (some 1) = "Fecha inválida" ∧
      Atoi "-1234567" = .ok (-1234567) ∧ formatDate (some (-1234567)) = "-123-45-67" := by
  decide

end StudentAssigner
